import Mathlib

/-!
Shallow embedding of `src/descriptors/analysis.rs` from the `minisafe`
repository: descriptor-policy inference and signature-accounting engine.

External types from `rust-bitcoin` / `rust-miniscript` (`ChildNumber`,
`DerivationPath`, `DescriptorPublicKey`, `SemanticPolicy`, `Miniscript`,
`Descriptor`) are modelled by exactly the constructors and fields this code
observes; payloads the code never inspects are left opaque (`Nat`).
Machine integers (`u16`, `u32`, `usize`) are modelled by `Nat` with explicit
range bounds where overflow or conversion matters.  Rust `Result` becomes
`Except`, `Option` stays `Option`, a `HashSet` of key origins becomes a
`Finset`, and a `HashMap` with per-key counters becomes an association list
with at most one entry per key (exactly the entries the Rust map holds).
A Rust `panic!` / `.expect(..)` (a fatal abort, per the repository spec a
distinct failure channel from recoverable errors) is modelled by `none`
from an `Option`-returning function.
-/

/-- Model of `bip32::ChildNumber`: one derivation step, normal (unhardened)
or hardened.  Rust's `0.into()` denotes `ChildNumber.normal 0`. -/
inductive ChildNumber
  | normal (index : Nat)
  | hardened (index : Nat)
  deriving DecidableEq, Repr

/-- Model of `bip32::DerivationPath`: a sequence of child numbers. -/
abbrev DerivationPath := List ChildNumber

/-- Model of `bip32::Fingerprint` (4 opaque bytes, only compared for
equality). -/
abbrev Fingerprint := Nat

/-- Model of `descriptor::Wildcard`. -/
inductive Wildcard
  | None
  | Unhardened
  | Hardened
  deriving DecidableEq, Repr

/-- Model of `descriptor::DescriptorMultiXKey`: the fields of a BIP389
multipath xpub that `analysis.rs` reads.  The xpub key material itself is
never inspected, only carried, so it is opaque. -/
structure DescriptorMultiXKey where
  origin : Option (Fingerprint × DerivationPath)
  xkey : Nat
  derivation_paths : List DerivationPath
  wildcard : Wildcard
  deriving DecidableEq, Repr

/-- Model of `descriptor::DescriptorPublicKey`.  The payloads of the
`Single` and `XPub` variants are never inspected by `analysis.rs` (both are
rejected wholesale by `is_valid_desc_key` and return `None` from
`key_origin`), so they are opaque. -/
inductive DescriptorPublicKey
  | Single (info : Nat)
  | XPub (info : Nat)
  | MultiXPub (xpub : DescriptorMultiXKey)
  deriving DecidableEq, Repr

/-- Model of `miniscript::policy::Semantic` (the semantic policy tree
obtained by lifting a Miniscript).  Hash-lock payloads are opaque; timelock
payloads are the raw `u32` value (`Older(val)` with `val.0 : u32`). -/
inductive SemanticPolicy
  | Unsatisfiable
  | Trivial
  | Key (key : DescriptorPublicKey)
  | After (t : Nat)
  | Older (t : Nat)
  | Sha256 (h : Nat)
  | Hash256 (h : Nat)
  | Ripemd160 (h : Nat)
  | Hash160 (h : Nat)
  | Threshold (k : Nat) (subs : List SemanticPolicy)

/-- Model of the error enum `LianaDescError` (defined in the repository
outside `analysis.rs`); only the variants `analysis.rs` constructs are
modelled: `IncompatibleDesc`, `InvalidKey(key)`, `InsaneTimelock(u32)`. -/
inductive LianaDescError
  | IncompatibleDesc
  | InvalidKey (key : DescriptorPublicKey)
  | InsaneTimelock (v : Nat)
  deriving DecidableEq, Repr

/-- Embedding of `is_single_key_or_multisig` (analysis.rs:15-23): whether a
policy node is a key check or a threshold all of whose subs are key
checks. -/
def is_single_key_or_multisig (policy : SemanticPolicy) : Bool :=
  match policy with
  | SemanticPolicy.Key _ => true
  | SemanticPolicy.Threshold _ subs =>
      subs.all (fun sub =>
        match sub with
        | SemanticPolicy.Key _ => true
        | _ => false)
  | _ => false

/-- Embedding of `is_valid_desc_key` (analysis.rs:30-50).  The Rust code
indexes `der_paths[0][len - 1]` and `der_paths[1][len - 1]` under the
BIP389 invariant enforced by rust-miniscript (the path list is nonempty and
all paths have the same, positive, length); out-of-range reads, which would
panic in Rust but are unreachable under that invariant, are modelled by a
sentinel default that fails the comparisons. -/
def is_valid_desc_key (key : DescriptorPublicKey) : Bool :=
  match key with
  | DescriptorPublicKey.Single _ => false
  | DescriptorPublicKey.XPub _ => false
  | DescriptorPublicKey.MultiXPub xpub =>
      let der_paths := xpub.derivation_paths
      let len := (der_paths.getD 0 []).length
      xpub.origin.isSome
        && decide (xpub.wildcard = Wildcard.Unhardened)
        && decide (der_paths.length = 2)
        && decide ((der_paths.getD 0 []).getD (len - 1) (ChildNumber.hardened 0)
              = ChildNumber.normal 0)
        && decide ((der_paths.getD 1 []).getD (len - 1) (ChildNumber.hardened 0)
              = ChildNumber.normal 1)

/-- Embedding of `csv_check` (analysis.rs:59-65): accept a raw `u32`
relative-timelock value iff it is nonzero and fits in a `u16`
(`u16::try_from` succeeds exactly on values `< 65536`). -/
def csv_check (csv_value : Nat) : Except LianaDescError Nat :=
  if csv_value > 0 then
    if csv_value ≤ 65535 then Except.ok csv_value
    else Except.error (LianaDescError.InsaneTimelock csv_value)
  else Except.error (LianaDescError.InsaneTimelock csv_value)

/-- Embedding of `key_origin` (analysis.rs:69-76). -/
def key_origin (key : DescriptorPublicKey) :
    Option (Fingerprint × DerivationPath) :=
  match key with
  | DescriptorPublicKey.MultiXPub xpub => xpub.origin
  | _ => none

/-- Embedding of `PathInfo` (analysis.rs:80-83). -/
inductive PathInfo
  | Single (key : DescriptorPublicKey)
  | Multi (k : Nat) (keys : List DescriptorPublicKey)
  deriving DecidableEq, Repr

/-- Helper embedding the iterator pipeline in `from_primary_path`
(analysis.rs:95-101): `subs.into_iter().map(|sub| match sub ...)
.collect::<Result<Vec<_>, _>>()` — collect every sub as a key, stopping at
the first non-key sub with `IncompatibleDesc`. -/
def collect_keys (subs : List SemanticPolicy) :
    Except LianaDescError (List DescriptorPublicKey) :=
  match subs with
  | [] => Except.ok []
  | sub :: rest =>
      match sub with
      | SemanticPolicy.Key key =>
          match collect_keys rest with
          | Except.ok keys => Except.ok (key :: keys)
          | Except.error e => Except.error e
      | _ => Except.error LianaDescError.IncompatibleDesc

/-- Embedding of `PathInfo::from_primary_path` (analysis.rs:89-106). -/
def PathInfo.from_primary_path (policy : SemanticPolicy) :
    Except LianaDescError PathInfo :=
  match policy with
  | SemanticPolicy.Key key => Except.ok (PathInfo.Single key)
  | SemanticPolicy.Threshold k subs =>
      match collect_keys subs with
      | Except.ok keys => Except.ok (PathInfo.Multi k keys)
      | Except.error e => Except.error e
  | _ => Except.error LianaDescError.IncompatibleDesc

/-- Helper embedding the `for sub in subs` loop of the N-of-N branch of
`from_recovery_path` (analysis.rs:140-153): accumulate the key subs in
order into `keys`, record at most one `Older` value (checked through
`csv_check`), and fail with `IncompatibleDesc` on a second `Older` or on
any other sub shape.  (The Rust `assert!(keys.len() > 1)` after the loop is
a provable invariant of the caller and cannot fire; it is not part of the
loop.) -/
def recovery_nofn_loop (subs : List SemanticPolicy) (tl_value : Option Nat)
    (keys : List DescriptorPublicKey) :
    Except LianaDescError (Option Nat × List DescriptorPublicKey) :=
  match subs with
  | [] => Except.ok (tl_value, keys)
  | sub :: rest =>
      match sub with
      | SemanticPolicy.Key key => recovery_nofn_loop rest tl_value (keys ++ [key])
      | SemanticPolicy.Older val =>
          if tl_value.isSome then Except.error LianaDescError.IncompatibleDesc
          else
            match csv_check val with
            | Except.ok t => recovery_nofn_loop rest (some t) keys
            | Except.error e => Except.error e
      | _ => Except.error LianaDescError.IncompatibleDesc

/-- Embedding of `PathInfo::from_recovery_path` (analysis.rs:111-164). -/
def PathInfo.from_recovery_path (policy : SemanticPolicy) :
    Except LianaDescError (Nat × PathInfo) :=
  match policy with
  | SemanticPolicy.Threshold k subs =>
      if k = 2 ∧ subs.length = 2 then
        -- The general case (as well as the n == 1 case).
        match subs.findSome? (fun s =>
            match s with
            | SemanticPolicy.Older val => some (csv_check val)
            | _ => none) with
        | none => Except.error LianaDescError.IncompatibleDesc
        | some tl_res =>
            match tl_res with
            | Except.error e => Except.error e
            | Except.ok tl_value =>
                match subs.find? (fun s => is_single_key_or_multisig s) with
                | none => Except.error LianaDescError.IncompatibleDesc
                | some keys_sub =>
                    match PathInfo.from_primary_path keys_sub with
                    | Except.ok info => Except.ok (tl_value, info)
                    | Except.error e => Except.error e
      else if k = subs.length ∧ 2 < subs.length then
        -- The N-of-N case.
        match recovery_nofn_loop subs none [] with
        | Except.error e => Except.error e
        | Except.ok (tl_opt, keys) =>
            match tl_opt with
            | none => Except.error LianaDescError.IncompatibleDesc
            | some tl_value => Except.ok (tl_value, PathInfo.Multi (k - 1) keys)
      else
        Except.error LianaDescError.IncompatibleDesc
  | _ => Except.error LianaDescError.IncompatibleDesc

mutual

/-- All key leaves appearing in a semantic policy tree, in order.  A lifted
Miniscript's policy mentions exactly the keys of the Miniscript, so a key
of `ms.lift_normalized` is among `ms.iter_pk` (external rust-miniscript
guarantee, taken as a hypothesis where needed). -/
def policy_keys (policy : SemanticPolicy) : List DescriptorPublicKey :=
  match policy with
  | SemanticPolicy.Key key => [key]
  | SemanticPolicy.Threshold _ subs => policy_keys_list subs
  | _ => []

/-- Key leaves of a list of semantic policies, in order. -/
def policy_keys_list (subs : List SemanticPolicy) :
    List DescriptorPublicKey :=
  match subs with
  | [] => []
  | sub :: rest => policy_keys sub ++ policy_keys_list rest

end

mutual

/-- Structural invariant of real lifted-and-normalized semantic policies
(guaranteed by the external rust-miniscript lift, not re-checked by this
code): every `Threshold(k, subs)` node satisfies `1 ≤ k ≤ len(subs)`. -/
def thresholds_wellformed (policy : SemanticPolicy) : Bool :=
  match policy with
  | SemanticPolicy.Threshold k subs =>
      decide (1 ≤ k) && decide (k ≤ subs.length)
        && thresholds_wellformed_list subs
  | _ => true

/-- List version of `thresholds_wellformed`. -/
def thresholds_wellformed_list (subs : List SemanticPolicy) : Bool :=
  match subs with
  | [] => true
  | sub :: rest => thresholds_wellformed sub && thresholds_wellformed_list rest

end

/-- The keys held by a classified spending path. -/
def path_keys (p : PathInfo) : List DescriptorPublicKey :=
  match p with
  | PathInfo.Single key => [key]
  | PathInfo.Multi _ keys => keys

/-- The structural soundness property claimed of classified paths: a
`Multi(k, keys)` has `1 ≤ k`, `k ≤ len(keys)` and `1 ≤ len(keys)`
(a `Single` carries exactly one key). -/
def path_wellformed (p : PathInfo) : Bool :=
  match p with
  | PathInfo.Single _ => true
  | PathInfo.Multi k keys =>
      decide (1 ≤ k) && decide (k ≤ keys.length) && decide (1 ≤ keys.length)

/-- A key origin, the `(bip32::Fingerprint, bip32::DerivationPath)` tuple
used as signer identity throughout `analysis.rs`. -/
abbrev KeyOrigin := Fingerprint × DerivationPath

/-- Helper embedding the iterator pipeline of the `Multi` arm of
`thresh_origins` (analysis.rs:181-187):
`keys.iter().map(|key| key_origin(key).expect(..).clone()).collect()` —
the origins of all keys in order, `none` modelling the panic on a key
without an origin. -/
def collect_origins (keys : List DescriptorPublicKey) :
    Option (List KeyOrigin) :=
  match keys with
  | [] => some []
  | key :: rest =>
      match key_origin key with
      | some o =>
          match collect_origins rest with
          | some os => some (o :: os)
          | none => none
      | none => none

/-- Embedding of `PathInfo::thresh_origins` (analysis.rs:168-190).  The Rust
function `.expect(..)`s (panics) when some key of the path is not an
origin-tagged multixpub; the panic is modelled by `none`.  The Rust
`HashSet` of origins is modelled by a `Finset`. -/
def PathInfo.thresh_origins (p : PathInfo) :
    Option (Nat × Finset KeyOrigin) :=
  match p with
  | PathInfo.Single key =>
      match key_origin key with
      | some o => some (1, {o})
      | none => none
  | PathInfo.Multi k keys =>
      match collect_origins keys with
      | some os => some (k, os.toFinset)
      | none => none

/-- Embedding of `PathSpendInfo` (analysis.rs:326-334).  The Rust
`HashMap<(Fingerprint, DerivationPath), usize>` is modelled by an
association list holding exactly the map's entries (at most one entry per
origin). -/
structure PathSpendInfo where
  threshold : Nat
  sigs_count : Nat
  signed_pubkeys : List (KeyOrigin × Nat)
  deriving DecidableEq, Repr

/-- Helper embedding the `signed_pubkeys` update in `spend_info`
(analysis.rs:218-222): `if let Some(count) = signed_pubkeys.get_mut(&k)
{ *count += 1 } else { signed_pubkeys.insert(k, 1) }` — increment the entry
for `o` if present, else add a fresh entry with count 1. -/
def bump_count (m : List (KeyOrigin × Nat)) (o : KeyOrigin) :
    List (KeyOrigin × Nat) :=
  match m with
  | [] => [(o, 1)]
  | e :: rest =>
      if e.1 = o then (e.1, e.2 + 1) :: rest
      else e :: bump_count rest o

/-- Helper embedding the `for (fg, der_path) in all_pubkeys_signed` loop of
`spend_info` (analysis.rs:203-224), threading the mutable `sigs_count` and
`signed_pubkeys` state. -/
def spend_info_loop (origins : Finset KeyOrigin)
    (all_pubkeys_signed : List (Fingerprint × DerivationPath))
    (sigs_count : Nat) (signed_pubkeys : List (KeyOrigin × Nat)) :
    Nat × List (KeyOrigin × Nat) :=
  match all_pubkeys_signed with
  | [] => (sigs_count, signed_pubkeys)
  | (fg, der_path) :: rest =>
      if der_path.length < 2 then
        spend_info_loop origins rest sigs_count signed_pubkeys
      else
        let parent_der_path : DerivationPath :=
          der_path.take (der_path.length - 2)
        let parent_origin : KeyOrigin := (fg, parent_der_path)
        if parent_origin ∈ origins then
          spend_info_loop origins rest (sigs_count + 1)
            (bump_count signed_pubkeys parent_origin)
        else
          spend_info_loop origins rest sigs_count signed_pubkeys

/-- Embedding of `PathInfo::spend_info` (analysis.rs:194-231).  The signer
iterator is modelled by a list; the `thresh_origins` panic propagates as
`none`. -/
def PathInfo.spend_info (p : PathInfo)
    (all_pubkeys_signed : List (Fingerprint × DerivationPath)) :
    Option PathSpendInfo :=
  match p.thresh_origins with
  | none => none
  | some (threshold, origins) =>
      let res := spend_info_loop origins all_pubkeys_signed 0 []
      some { threshold := threshold, sigs_count := res.1,
             signed_pubkeys := res.2 }

/-- Embedding of `LianaPolicy` (analysis.rs:236-239); the timelock `u16` is
a `Nat` bounded by `csv_check`. -/
structure LianaPolicy where
  primary_path : PathInfo
  recovery_path : Nat × PathInfo
  deriving DecidableEq, Repr

/-- Model of `miniscript::Miniscript` (external), abstracted by the only
two observations `from_multipath_descriptor` makes of it: `iter_pk()` (the
list of public keys in iteration order) and
`lift().expect(..).normalized()` (the lift is consumed as a black box whose
output is an arbitrary semantic policy tree, per the repository spec). -/
structure Miniscript where
  iter_pk : List DescriptorPublicKey
  lift_normalized : SemanticPolicy

/-- Model of `descriptor::WshInner`: a `Wsh` descriptor wraps either a
`Miniscript` or a `SortedMulti` (whose payload is never inspected). -/
inductive WshInner
  | Ms (ms : Miniscript)
  | SortedMulti

/-- Model of `descriptor::Descriptor`: only the `Wsh` variant is inspected;
all other variants are rejected wholesale. -/
inductive Descriptor
  | Bare
  | Pkh
  | Wpkh
  | Sh
  | Wsh (inner : WshInner)
  | Tr

/-- Embedding of `LianaPolicy::from_multipath_descriptor`
(analysis.rs:244-312). -/
def LianaPolicy.from_multipath_descriptor (desc : Descriptor) :
    Except LianaDescError LianaPolicy :=
  match desc with
  | Descriptor.Wsh wsh_desc =>
      match wsh_desc with
      | WshInner.Ms ms =>
          match ms.iter_pk.find? (fun pk => !(is_valid_desc_key pk)) with
          | some key => Except.error (LianaDescError.InvalidKey key)
          | none =>
              match ms.lift_normalized with
              | SemanticPolicy.Threshold 1 subs =>
                  if subs.length ≠ 2 then
                    Except.error LianaDescError.IncompatibleDesc
                  else
                    match subs.foldl
                        (fun (acc : Option SemanticPolicy × Option SemanticPolicy) sub =>
                          if is_single_key_or_multisig sub then (some sub, acc.2)
                          else (acc.1, some sub))
                        (none, none) with
                    | (some prim_path_sub, some reco_path_sub) =>
                        match PathInfo.from_primary_path prim_path_sub with
                        | Except.error e => Except.error e
                        | Except.ok primary_path =>
                            match PathInfo.from_recovery_path reco_path_sub with
                            | Except.error e => Except.error e
                            | Except.ok recovery_path =>
                                Except.ok { primary_path := primary_path,
                                            recovery_path := recovery_path }
                    | _ => Except.error LianaDescError.IncompatibleDesc
              | _ => Except.error LianaDescError.IncompatibleDesc
      | _ => Except.error LianaDescError.IncompatibleDesc
  | _ => Except.error LianaDescError.IncompatibleDesc

/-- Indicator used for bookkeeping of the N-of-N loop: 1 once a timelock
value has been recorded, 0 before. -/
def older_ind (tl : Option Nat) : Nat :=
  match tl with
  | some _ => 1
  | none => 0

/-- The origin a signer `(fingerprint, derivation path)` is attributed to
by `spend_info`: the fingerprint paired with the derivation path minus its
final two indexes. -/
def signer_origin (s : Fingerprint × DerivationPath) : KeyOrigin :=
  (s.1, s.2.take (s.2.length - 2))

/-- Spec-mirror count of signatures attributed to a path: signers whose
derivation path has at least 2 components and whose derived origin lies in
the path's origin set. -/
def count_sigs (origins : Finset KeyOrigin)
    (signers : List (Fingerprint × DerivationPath)) : Nat :=
  (signers.filter (fun s =>
    decide (2 ≤ s.2.length) && decide (signer_origin s ∈ origins))).length

/-- Spec-mirror per-origin count: signers with at least 2 derivation
components whose derived origin is `o`, provided `o` lies in the path's
origin set. -/
def count_for (origins : Finset KeyOrigin)
    (signers : List (Fingerprint × DerivationPath)) (o : KeyOrigin) : Nat :=
  (signers.filter (fun s =>
    decide (2 ≤ s.2.length) && decide (signer_origin s = o)
      && decide (o ∈ origins))).length

/-- Lookup of a per-origin counter in the association list modelling the
`signed_pubkeys` map; absent entries count as 0. -/
def lookup_count (m : List (KeyOrigin × Nat)) (o : KeyOrigin) : Nat :=
  match m.find? (fun e => decide (e.1 = o)) with
  | some e => e.2
  | none => 0

/-- Total of all per-origin counters of the `signed_pubkeys` map. -/
def sum_counts (m : List (KeyOrigin × Nat)) : Nat :=
  (m.map (fun e => e.2)).sum

/-- A valid descriptor key (origin-tagged, unhardened wildcard, multipath
tails ending in 0 and 1) with fingerprint `0xA1`. -/
def ex_key_a : DescriptorPublicKey :=
  DescriptorPublicKey.MultiXPub
    { origin := some (0xA1, [ChildNumber.hardened 48, ChildNumber.normal 1]),
      xkey := 1,
      derivation_paths := [[ChildNumber.normal 0], [ChildNumber.normal 1]],
      wildcard := Wildcard.Unhardened }

/-- A valid descriptor key with fingerprint `0xB2`. -/
def ex_key_b : DescriptorPublicKey :=
  DescriptorPublicKey.MultiXPub
    { origin := some (0xB2, [ChildNumber.hardened 48, ChildNumber.normal 1]),
      xkey := 2,
      derivation_paths := [[ChildNumber.normal 0], [ChildNumber.normal 1]],
      wildcard := Wildcard.Unhardened }

/-- A valid descriptor key with fingerprint `0xC3`. -/
def ex_key_c : DescriptorPublicKey :=
  DescriptorPublicKey.MultiXPub
    { origin := some (0xC3, [ChildNumber.hardened 48, ChildNumber.normal 1]),
      xkey := 3,
      derivation_paths := [[ChildNumber.normal 0], [ChildNumber.normal 1]],
      wildcard := Wildcard.Unhardened }

/-- The origin of `ex_key_a`. -/
def ex_origin_a : KeyOrigin := (0xA1, [ChildNumber.hardened 48, ChildNumber.normal 1])

/-- The origin of `ex_key_b`. -/
def ex_origin_b : KeyOrigin := (0xB2, [ChildNumber.hardened 48, ChildNumber.normal 1])

/-- The origin of `ex_key_c`. -/
def ex_origin_c : KeyOrigin := (0xC3, [ChildNumber.hardened 48, ChildNumber.normal 1])

/-- A `Wsh`-of-`Miniscript` descriptor whose (abstract) Miniscript has key
list `pks` and lifted-and-normalized policy `policy`. -/
def mk_desc (pks : List DescriptorPublicKey) (policy : SemanticPolicy) :
    Descriptor :=
  Descriptor.Wsh (WshInner.Ms { iter_pk := pks, lift_normalized := policy })

/-- The signer list of the signature-accounting scenario: two signatures
derived from `ex_key_a`'s origin at `/0/5`, and one from an unrelated
origin with fingerprint `0xD4`. -/
def ex_signers : List (Fingerprint × DerivationPath) :=
  [ (0xA1, [ChildNumber.hardened 48, ChildNumber.normal 1,
            ChildNumber.normal 0, ChildNumber.normal 5]),
    (0xA1, [ChildNumber.hardened 48, ChildNumber.normal 1,
            ChildNumber.normal 0, ChildNumber.normal 5]),
    (0xD4, [ChildNumber.hardened 48, ChildNumber.normal 1,
            ChildNumber.normal 0, ChildNumber.normal 5]) ]

/-- A lifted policy that an arbitrary-tree reading of the pipeline accepts
although its primary branch is a degenerate `Threshold(0, [key])`. -/
def cex_policy : SemanticPolicy :=
  SemanticPolicy.Threshold 1
    [ SemanticPolicy.Threshold 0 [SemanticPolicy.Key ex_key_a],
      SemanticPolicy.Threshold 2
        [SemanticPolicy.Older 144, SemanticPolicy.Key ex_key_b] ]

/-- The descriptor carrying `cex_policy` as its lift output, with all keys
valid. -/
def cex_desc : Descriptor := mk_desc [ex_key_a, ex_key_b] cex_policy

/-- A wellformed lifted policy: primary `Key(a)`, recovery
`Threshold(2, [Older 144, Key b])`. -/
def wf_policy : SemanticPolicy :=
  SemanticPolicy.Threshold 1
    [ SemanticPolicy.Key ex_key_a,
      SemanticPolicy.Threshold 2
        [SemanticPolicy.Older 144, SemanticPolicy.Key ex_key_b] ]

/-- The descriptor carrying `wf_policy` as its lift output. -/
def wf_desc : Descriptor := mk_desc [ex_key_a, ex_key_b] wf_policy

/-- Spec-mirror of the Key Validator contract (§4.1 of the spec, worded
from the spec, to be compared with `is_valid_desc_key`): the key is a
multi-xpub carrying an origin, with an unhardened wildcard, and exactly two
derivation paths whose final derivation index values are literally 0 and 1
in that order. -/
def is_valid_desc_key_spec (key : DescriptorPublicKey) : Prop :=
  ∃ xpub, key = DescriptorPublicKey.MultiXPub xpub ∧
    xpub.origin.isSome = true ∧
    xpub.wildcard = Wildcard.Unhardened ∧
    ∃ p0 p1, xpub.derivation_paths = [p0, p1] ∧
      p0.getLast? = some (ChildNumber.normal 0) ∧
      p1.getLast? = some (ChildNumber.normal 1)

/-- BIP389 invariant on a descriptor key, enforced by rust-miniscript
before this code runs (source comment at analysis.rs:37): a multixpub's
derivation-path list is nonempty and all its paths have the same, positive,
length.  Trivially true of single keys and plain xpubs. -/
def bip389_paths_wellformed (key : DescriptorPublicKey) : Bool :=
  match key with
  | DescriptorPublicKey.MultiXPub xpub =>
      !xpub.derivation_paths.isEmpty
        && xpub.derivation_paths.all (fun p =>
             decide (p.length = (xpub.derivation_paths.getD 0 []).length)
               && decide (0 < p.length))
  | _ => true

/-- Looking up a nonempty list at its final index (with any default)
yields its last element. -/
theorem some_getD_last {α : Type} (p : List α) (d : α) (h : p ≠ []) :
    some (p.getD (p.length - 1) d) = p.getLast? := by
  induction p with
  | nil => exact absurd rfl h
  | cons a t ih =>
      cases t with
      | nil => rfl
      | cons b t' =>
          rw [List.getLast?_cons_cons, ← ih (by simp)]
          simp [List.getD_cons_succ]

/-- C5: for every unsigned 32-bit value `v`, the timelock check
`csv_check` returns `Ok(v)` exactly when `1 ≤ v ≤ 65535`, and otherwise
returns `InsaneTimelock` carrying the raw value `v`; in particular `0` and
`0x00400000` are rejected and `144` is accepted as `144`. -/
theorem claim_c5 :
    (∀ v : Nat, v < 2 ^ 32 →
      (csv_check v = Except.ok v ↔ 1 ≤ v ∧ v ≤ 65535) ∧
      (¬(1 ≤ v ∧ v ≤ 65535) →
        csv_check v = Except.error (LianaDescError.InsaneTimelock v))) ∧
    csv_check 0 = Except.error (LianaDescError.InsaneTimelock 0) ∧
    csv_check 0x00400000 =
      Except.error (LianaDescError.InsaneTimelock 0x00400000) ∧
    csv_check 144 = Except.ok 144 := by
  refine ⟨fun v _hv => ?_, rfl, rfl, rfl⟩
  unfold csv_check
  split_ifs with h1 h2
  · exact ⟨⟨fun _ => ⟨h1, h2⟩, fun _ => rfl⟩, fun hc => absurd ⟨h1, h2⟩ hc⟩
  · exact ⟨⟨fun h => h.elim, fun hh => absurd hh.2 h2⟩, fun _ => rfl⟩
  · exact ⟨⟨fun h => h.elim, fun hh => absurd hh.1 (by omega)⟩, fun _ => rfl⟩

/-- Witness for C5 at the concrete inputs 144 and 0. -/
theorem claim_c5_witness :
    (csv_check 144 = Except.ok 144 ↔ 1 ≤ 144 ∧ 144 ≤ 65535) ∧
    csv_check 0 = Except.error (LianaDescError.InsaneTimelock 0) :=
  ⟨(claim_c5.1 144 (by norm_num)).1, claim_c5.2.1⟩

/-- C6: `is_valid_desc_key` accepts exactly the multi-xpubs that carry an
origin, have an unhardened wildcard, and have exactly two derivation paths
whose final derivation index values are literally 0 and 1 in that order;
every single key and every non-multipath xpub is rejected.  The hypothesis
is the BIP389 same-length/nonempty path invariant rust-miniscript enforces
on every multixpub it constructs. -/
theorem claim_c6 : ∀ key, bip389_paths_wellformed key = true →
    (is_valid_desc_key key = true ↔ is_valid_desc_key_spec key) := by
  intro key hwf
  cases key with
  | Single info => simp [is_valid_desc_key, is_valid_desc_key_spec]
  | XPub info => simp [is_valid_desc_key, is_valid_desc_key_spec]
  | MultiXPub xpub =>
      simp only [bip389_paths_wellformed, Bool.and_eq_true, List.all_eq_true,
        Bool.not_eq_true', decide_eq_true_eq] at hwf
      obtain ⟨-, hall⟩ := hwf
      constructor
      · intro hv
        simp only [is_valid_desc_key, Bool.and_eq_true, decide_eq_true_eq] at hv
        obtain ⟨⟨⟨⟨hor, hw⟩, hlen⟩, h0⟩, h1⟩ := hv
        obtain ⟨p0, p1, hp⟩ := List.length_eq_two.1 hlen
        rw [hp] at h0 h1 hall
        simp only [List.getD_cons_zero, List.getD_cons_succ] at h0 h1 hall
        have hp0len : 0 < p0.length := (hall p0 (by simp)).2
        have hp1len : p1.length = p0.length := (hall p1 (by simp)).1
        have hne0 : p0 ≠ [] := List.ne_nil_of_length_pos hp0len
        have hne1 : p1 ≠ [] := List.ne_nil_of_length_pos (by omega)
        refine ⟨xpub, rfl, hor, hw, p0, p1, hp, ?_, ?_⟩
        · rw [← some_getD_last p0 (ChildNumber.hardened 0) hne0, h0]
        · rw [← some_getD_last p1 (ChildNumber.hardened 0) hne1, hp1len, h1]
      · rintro ⟨xpub', heq, hor, hw, p0, p1, hp, h0, h1⟩
        cases heq
        rw [hp] at hall
        simp only [List.getD_cons_zero] at hall
        have hp0len : 0 < p0.length := (hall p0 (by simp)).2
        have hp1len : p1.length = p0.length := (hall p1 (by simp)).1
        have hne0 : p0 ≠ [] := List.ne_nil_of_length_pos hp0len
        have hne1 : p1 ≠ [] := List.ne_nil_of_length_pos (by omega)
        simp only [is_valid_desc_key, Bool.and_eq_true, decide_eq_true_eq]
        rw [hp]
        simp only [List.getD_cons_zero, List.getD_cons_succ]
        refine ⟨⟨⟨⟨hor, hw⟩, by simp⟩, ?_⟩, ?_⟩
        · have hgd := some_getD_last p0 (ChildNumber.hardened 0) hne0
          rw [h0] at hgd
          exact Option.some.inj hgd
        · have hgd := some_getD_last p1 (ChildNumber.hardened 0) hne1
          rw [h1] at hgd
          rw [← hp1len]
          exact Option.some.inj hgd

/-- Witness for C6 at a concrete valid key. -/
theorem claim_c6_witness :
    is_valid_desc_key ex_key_a = true ↔ is_valid_desc_key_spec ex_key_a :=
  claim_c6 ex_key_a (by decide)

/-- Searching for the first invalid key in a list that starts with valid
keys finds the first invalid one. -/
theorem find_invalid_first (good : List DescriptorPublicKey)
    (key : DescriptorPublicKey) (rest : List DescriptorPublicKey)
    (hgood : ∀ pk ∈ good, is_valid_desc_key pk = true)
    (hkey : is_valid_desc_key key = false) :
    (good ++ key :: rest).find? (fun pk => !(is_valid_desc_key pk)) =
      some key := by
  induction good with
  | nil =>
      simp only [List.nil_append]
      rw [List.find?_cons_of_pos]
      simp [hkey]
  | cons a tl ih =>
      simp only [List.cons_append]
      rw [List.find?_cons_of_neg]
      · exact ih (fun pk h => hgood pk (List.mem_cons_of_mem a h))
      · simp [hgood a (List.mem_cons_self a tl)]

/-- C8: a descriptor whose wrapped script references a key failing
`is_valid_desc_key` fails with `InvalidKey` carrying the first offending
key in iteration order, whatever the lifted policy is (so `InvalidKey`
takes priority over any later `IncompatibleDesc` or `InsaneTimelock`). -/
theorem claim_c8 : ∀ (good : List DescriptorPublicKey)
    (key : DescriptorPublicKey) (rest : List DescriptorPublicKey)
    (policy : SemanticPolicy),
    (∀ pk ∈ good, is_valid_desc_key pk = true) →
    is_valid_desc_key key = false →
    LianaPolicy.from_multipath_descriptor
      (mk_desc (good ++ key :: rest) policy) =
      Except.error (LianaDescError.InvalidKey key) := by
  intro good key rest policy hgood hkey
  have hfind := find_invalid_first good key rest hgood hkey
  simp [LianaPolicy.from_multipath_descriptor, mk_desc, hfind]

/-- Witness for C8: a plain xpub is rejected as the offending key even
though the lifted policy is degenerate. -/
theorem claim_c8_witness :
    LianaPolicy.from_multipath_descriptor
      (mk_desc [DescriptorPublicKey.XPub 0] SemanticPolicy.Trivial) =
      Except.error (LianaDescError.InvalidKey (DescriptorPublicKey.XPub 0)) :=
  claim_c8 [] (DescriptorPublicKey.XPub 0) [] SemanticPolicy.Trivial
    (fun pk h => absurd h (List.not_mem_nil pk)) rfl

/-- Collecting a list made of key leaves only always succeeds. -/
theorem collect_keys_of_all_keys : ∀ subs : List SemanticPolicy,
    (∀ s ∈ subs, ∃ key, s = SemanticPolicy.Key key) →
    ∃ keys, collect_keys subs = Except.ok keys := by
  intro subs h
  induction subs with
  | nil => exact ⟨[], rfl⟩
  | cons a tl ih =>
      obtain ⟨k, hk⟩ := h a (by simp)
      subst hk
      obtain ⟨keys, hkeys⟩ := ih (fun s hs => h s (by simp [hs]))
      exact ⟨k :: keys, by simp [collect_keys, hkeys]⟩

/-- Shape inversion of `is_single_key_or_multisig`: a node satisfying it is
a key leaf or a threshold all of whose subs are key leaves. -/
theorem is_single_key_or_multisig_shape : ∀ x,
    is_single_key_or_multisig x = true →
    (∃ key, x = SemanticPolicy.Key key) ∨
    (∃ k subs, x = SemanticPolicy.Threshold k subs ∧
      ∀ s ∈ subs, ∃ key, s = SemanticPolicy.Key key) := by
  intro x hx
  cases x with
  | Key key => exact Or.inl ⟨key, rfl⟩
  | Threshold k subs =>
      refine Or.inr ⟨k, subs, rfl, ?_⟩
      intro s hs
      have hss := List.all_eq_true.1 hx s hs
      cases s <;> simp_all
  | Unsatisfiable => exact absurd hx (by simp [is_single_key_or_multisig])
  | Trivial => exact absurd hx (by simp [is_single_key_or_multisig])
  | After t => exact absurd hx (by simp [is_single_key_or_multisig])
  | Older t => exact absurd hx (by simp [is_single_key_or_multisig])
  | Sha256 h => exact absurd hx (by simp [is_single_key_or_multisig])
  | Hash256 h => exact absurd hx (by simp [is_single_key_or_multisig])
  | Ripemd160 h => exact absurd hx (by simp [is_single_key_or_multisig])
  | Hash160 h => exact absurd hx (by simp [is_single_key_or_multisig])

/-- A node satisfying `is_single_key_or_multisig` is accepted by
`from_primary_path`. -/
theorem from_primary_path_ok (x : SemanticPolicy)
    (hx : is_single_key_or_multisig x = true) :
    ∃ info, PathInfo.from_primary_path x = Except.ok info := by
  rcases is_single_key_or_multisig_shape x hx with ⟨key, rfl⟩ | ⟨k, subs, rfl, hsubs⟩
  · exact ⟨PathInfo.Single key, rfl⟩
  · obtain ⟨keys, hkeys⟩ := collect_keys_of_all_keys subs hsubs
    exact ⟨PathInfo.Multi k keys, by simp [PathInfo.from_primary_path, hkeys]⟩

/-- C10: the general (two-sub) recovery case is insensitive to the order of
the timelock leaf and the key sub: both orders yield the same successful
`(timelock, PathInfo)` result. -/
theorem claim_c10 : ∀ (t : Nat) (x : SemanticPolicy),
    1 ≤ t → t ≤ 65535 → is_single_key_or_multisig x = true →
    ∃ info,
      PathInfo.from_recovery_path
        (SemanticPolicy.Threshold 2 [SemanticPolicy.Older t, x]) =
        Except.ok (t, info) ∧
      PathInfo.from_recovery_path
        (SemanticPolicy.Threshold 2 [x, SemanticPolicy.Older t]) =
        Except.ok (t, info) := by
  intro t x h1 h2 hx
  have hcsv : csv_check t = Except.ok t := by
    unfold csv_check
    rw [if_pos (by omega), if_pos h2]
  rcases is_single_key_or_multisig_shape x hx with ⟨key, rfl⟩ | ⟨k, subs, rfl, hsubs⟩
  · refine ⟨PathInfo.Single key, ?_, ?_⟩ <;>
      simp [PathInfo.from_recovery_path, PathInfo.from_primary_path,
        List.findSome?_cons, List.find?, hcsv, is_single_key_or_multisig]
  · obtain ⟨keys, hkeys⟩ := collect_keys_of_all_keys subs hsubs
    have hall : (subs.all fun sub =>
        match sub with
        | SemanticPolicy.Key _ => true
        | _ => false) = true := hx
    refine ⟨PathInfo.Multi k keys, ?_, ?_⟩ <;>
      simp [PathInfo.from_recovery_path, PathInfo.from_primary_path,
        List.findSome?_cons, List.find?, hcsv, hall, hkeys,
        is_single_key_or_multisig]

/-- Witness for C10 at `t = 144` and a single-key sub. -/
theorem claim_c10_witness :
    ∃ info,
      PathInfo.from_recovery_path (SemanticPolicy.Threshold 2
        [SemanticPolicy.Older 144, SemanticPolicy.Key ex_key_a]) =
        Except.ok (144, info) ∧
      PathInfo.from_recovery_path (SemanticPolicy.Threshold 2
        [SemanticPolicy.Key ex_key_a, SemanticPolicy.Older 144]) =
        Except.ok (144, info) :=
  claim_c10 144 (SemanticPolicy.Key ex_key_a) (by norm_num) (by norm_num) rfl

/-- Running the N-of-N loop over a prefix of key leaves appends exactly
those keys, in order, to the accumulator. -/
theorem recovery_nofn_loop_keys_front :
    ∀ (l rest : List SemanticPolicy) (tl : Option Nat)
      (acc : List DescriptorPublicKey),
    (∀ s ∈ l, ∃ key, s = SemanticPolicy.Key key) →
    recovery_nofn_loop (l ++ rest) tl acc =
      recovery_nofn_loop rest tl (acc ++ policy_keys_list l) := by
  intro l
  induction l with
  | nil => intro rest tl acc _; simp [policy_keys_list]
  | cons a t ih =>
      intro rest tl acc h
      obtain ⟨key, rfl⟩ := h a (by simp)
      have step : recovery_nofn_loop ((SemanticPolicy.Key key :: t) ++ rest) tl acc
          = recovery_nofn_loop (t ++ rest) tl (acc ++ [key]) := rfl
      rw [step, ih rest tl (acc ++ [key]) (fun s hs => h s (by simp [hs]))]
      simp [policy_keys_list, policy_keys, List.append_assoc]

/-- Running the N-of-N loop over a list made of key leaves only returns the
timelock unchanged and the accumulator extended with those keys. -/
theorem recovery_nofn_loop_keys_all :
    ∀ (l : List SemanticPolicy) (tl : Option Nat)
      (acc : List DescriptorPublicKey),
    (∀ s ∈ l, ∃ key, s = SemanticPolicy.Key key) →
    recovery_nofn_loop l tl acc = Except.ok (tl, acc ++ policy_keys_list l) := by
  intro l tl acc h
  have hpre := recovery_nofn_loop_keys_front l [] tl acc h
  rw [List.append_nil] at hpre
  rw [hpre]
  simp [recovery_nofn_loop]

/-- C3: in the N-of-N recovery case (`k == len(subs)`, `len(subs) > 2`,
exactly one `Older(T)` sub with `T` in `[1, 65535]`, all other subs key
leaves), `from_recovery_path` returns `Ok((T, Multi(k-1, keys)))` with the
key leaves in their original order. -/
theorem claim_c3 : ∀ (t : Nat) (pre post : List SemanticPolicy),
    (∀ s ∈ pre, ∃ key, s = SemanticPolicy.Key key) →
    (∀ s ∈ post, ∃ key, s = SemanticPolicy.Key key) →
    2 < pre.length + post.length + 1 →
    1 ≤ t → t ≤ 65535 →
    PathInfo.from_recovery_path
      (SemanticPolicy.Threshold (pre.length + post.length + 1)
        (pre ++ SemanticPolicy.Older t :: post)) =
      Except.ok (t, PathInfo.Multi (pre.length + post.length)
        (policy_keys_list pre ++ policy_keys_list post)) := by
  intro t pre post hpre hpost hk h1 h2
  have hcsv : csv_check t = Except.ok t := by
    unfold csv_check
    rw [if_pos (by omega), if_pos h2]
  have hlen : (pre ++ SemanticPolicy.Older t :: post).length =
      pre.length + post.length + 1 := by
    simp [List.length_append]
    omega
  have hne : ¬(pre.length + post.length + 1 = 2
      ∧ (pre ++ SemanticPolicy.Older t :: post).length = 2) := by
    intro hcontra
    omega
  have hyes : pre.length + post.length + 1 =
      (pre ++ SemanticPolicy.Older t :: post).length
      ∧ 2 < (pre ++ SemanticPolicy.Older t :: post).length := by
    rw [hlen]
    omega
  simp only [PathInfo.from_recovery_path, if_neg hne, if_pos hyes]
  rw [recovery_nofn_loop_keys_front pre _ none [] hpre]
  have step : recovery_nofn_loop (SemanticPolicy.Older t :: post) none
      ([] ++ policy_keys_list pre) =
      recovery_nofn_loop post (some t) ([] ++ policy_keys_list pre) := by
    show (match csv_check t with
          | Except.ok v =>
              recovery_nofn_loop post (some v) ([] ++ policy_keys_list pre)
          | Except.error e => Except.error e) =
        recovery_nofn_loop post (some t) ([] ++ policy_keys_list pre)
    rw [hcsv]
  rw [step, recovery_nofn_loop_keys_all post (some t) _ hpost]
  simp

/-- Witness for C3: `threshold(4, [older(144), key1, key2, key3])`
classifies to `Multi(3, [key1, key2, key3])` with timelock 144. -/
theorem claim_c3_witness :
    PathInfo.from_recovery_path
      (SemanticPolicy.Threshold 4
        [SemanticPolicy.Older 144, SemanticPolicy.Key ex_key_a,
         SemanticPolicy.Key ex_key_b, SemanticPolicy.Key ex_key_c]) =
      Except.ok (144, PathInfo.Multi 3 [ex_key_a, ex_key_b, ex_key_c]) :=
  claim_c3 144 []
    [SemanticPolicy.Key ex_key_a, SemanticPolicy.Key ex_key_b,
     SemanticPolicy.Key ex_key_c]
    (fun s hs => absurd hs (List.not_mem_nil s))
    (by
      intro s hs
      simp only [List.mem_cons, List.not_mem_nil, or_false] at hs
      rcases hs with rfl | rfl | rfl
      · exact ⟨ex_key_a, rfl⟩
      · exact ⟨ex_key_b, rfl⟩
      · exact ⟨ex_key_c, rfl⟩)
    (by decide) (by decide) (by decide)

/-- C4: with all keys valid, `from_multipath_descriptor` fails with
`IncompatibleDesc` unless the normalized lifted policy is a top-level
`Threshold(1, subs)` with exactly 2 subs of which exactly one satisfies
`is_single_key_or_multisig`; when exactly one does, that sub is classified
as the primary branch and the other as the recovery branch. -/
theorem claim_c4 : ∀ pks : List DescriptorPublicKey,
    pks.find? (fun pk => !(is_valid_desc_key pk)) = none →
    (∀ policy : SemanticPolicy,
      (∀ subs, policy ≠ SemanticPolicy.Threshold 1 subs) →
      LianaPolicy.from_multipath_descriptor (mk_desc pks policy) =
        Except.error LianaDescError.IncompatibleDesc) ∧
    (∀ subs, subs.length ≠ 2 →
      LianaPolicy.from_multipath_descriptor
        (mk_desc pks (SemanticPolicy.Threshold 1 subs)) =
        Except.error LianaDescError.IncompatibleDesc) ∧
    (∀ s1 s2, is_single_key_or_multisig s1 = is_single_key_or_multisig s2 →
      LianaPolicy.from_multipath_descriptor
        (mk_desc pks (SemanticPolicy.Threshold 1 [s1, s2])) =
        Except.error LianaDescError.IncompatibleDesc) ∧
    (∀ s1 s2, is_single_key_or_multisig s1 = true →
      is_single_key_or_multisig s2 = false →
      LianaPolicy.from_multipath_descriptor
        (mk_desc pks (SemanticPolicy.Threshold 1 [s1, s2])) =
        (match PathInfo.from_primary_path s1 with
         | Except.error e => Except.error e
         | Except.ok primary_path =>
             match PathInfo.from_recovery_path s2 with
             | Except.error e => Except.error e
             | Except.ok recovery_path =>
                 Except.ok { primary_path := primary_path,
                             recovery_path := recovery_path }) ∧
      LianaPolicy.from_multipath_descriptor
        (mk_desc pks (SemanticPolicy.Threshold 1 [s2, s1])) =
        (match PathInfo.from_primary_path s1 with
         | Except.error e => Except.error e
         | Except.ok primary_path =>
             match PathInfo.from_recovery_path s2 with
             | Except.error e => Except.error e
             | Except.ok recovery_path =>
                 Except.ok { primary_path := primary_path,
                             recovery_path := recovery_path })) := by
  intro pks hfind
  refine ⟨?_, ?_, ?_, ?_⟩
  · intro policy hnp
    cases policy with
    | Threshold k subs =>
        rcases k with _ | (_ | n)
        · simp [LianaPolicy.from_multipath_descriptor, mk_desc, hfind]
        · exact absurd rfl (hnp subs)
        · simp [LianaPolicy.from_multipath_descriptor, mk_desc, hfind]
    | Unsatisfiable => simp [LianaPolicy.from_multipath_descriptor, mk_desc, hfind]
    | Trivial => simp [LianaPolicy.from_multipath_descriptor, mk_desc, hfind]
    | Key key => simp [LianaPolicy.from_multipath_descriptor, mk_desc, hfind]
    | After t => simp [LianaPolicy.from_multipath_descriptor, mk_desc, hfind]
    | Older t => simp [LianaPolicy.from_multipath_descriptor, mk_desc, hfind]
    | Sha256 h => simp [LianaPolicy.from_multipath_descriptor, mk_desc, hfind]
    | Hash256 h => simp [LianaPolicy.from_multipath_descriptor, mk_desc, hfind]
    | Ripemd160 h => simp [LianaPolicy.from_multipath_descriptor, mk_desc, hfind]
    | Hash160 h => simp [LianaPolicy.from_multipath_descriptor, mk_desc, hfind]
  · intro subs hlen2
    simp only [LianaPolicy.from_multipath_descriptor, mk_desc, hfind]
    rw [if_pos hlen2]
  · intro s1 s2 heq
    simp only [LianaPolicy.from_multipath_descriptor, mk_desc, hfind]
    rw [if_neg (by simp)]
    cases hb : is_single_key_or_multisig s1 <;>
      simp [List.foldl, hb, heq ▸ hb]
  · intro s1 s2 hb1 hb2
    constructor <;>
      simp [LianaPolicy.from_multipath_descriptor, mk_desc, hfind,
        List.foldl, hb1, hb2]

/-- Witness for C4 at an empty key list and a zero-sub threshold. -/
theorem claim_c4_witness :
    LianaPolicy.from_multipath_descriptor
      (mk_desc [] (SemanticPolicy.Threshold 1 [])) =
      Except.error LianaDescError.IncompatibleDesc :=
  (claim_c4 [] rfl).2.1 [] (by decide)

/-- Elementwise reading of `thresholds_wellformed_list`. -/
theorem thresholds_wellformed_list_mem : ∀ subs : List SemanticPolicy,
    thresholds_wellformed_list subs = true →
    ∀ s ∈ subs, thresholds_wellformed s = true := by
  intro subs h s hs
  induction subs with
  | nil => cases hs
  | cons a t ih =>
      simp only [thresholds_wellformed_list, Bool.and_eq_true] at h
      rcases List.mem_cons.1 hs with rfl | hs'
      · exact h.1
      · exact ih h.2 hs'

/-- Components of wellformedness at a threshold node. -/
theorem twf_thresh_parts {k : Nat} {subs : List SemanticPolicy}
    (h : thresholds_wellformed (SemanticPolicy.Threshold k subs) = true) :
    1 ≤ k ∧ k ≤ subs.length ∧ ∀ s ∈ subs, thresholds_wellformed s = true := by
  simp only [thresholds_wellformed, Bool.and_eq_true, decide_eq_true_eq] at h
  exact ⟨h.1.1, h.1.2, thresholds_wellformed_list_mem subs h.2⟩

/-- What a successful `collect_keys` guarantees: one key per sub, each key
leaf taken from the sub list. -/
theorem collect_keys_spec : ∀ (subs : List SemanticPolicy)
    (keys : List DescriptorPublicKey),
    collect_keys subs = Except.ok keys →
    keys.length = subs.length ∧
      ∀ x ∈ keys, SemanticPolicy.Key x ∈ subs := by
  intro subs
  induction subs with
  | nil =>
      intro keys h
      simp only [collect_keys] at h
      cases h
      exact ⟨rfl, fun x hx => absurd hx (List.not_mem_nil x)⟩
  | cons a t ih =>
      intro keys h
      cases a <;> simp only [collect_keys] at h <;>
        try exact Except.noConfusion h
      case Key key =>
        cases hc : collect_keys t with
        | ok ks =>
            rw [hc] at h
            cases h
            obtain ⟨hl, hm⟩ := ih ks hc
            refine ⟨by simp [hl], ?_⟩
            intro x hx
            rcases List.mem_cons.1 hx with rfl | hx'
            · exact List.mem_cons_self _ _
            · exact List.mem_cons_of_mem _ (hm x hx')
        | error e =>
            rw [hc] at h
            exact Except.noConfusion h

/-- Shape inversion of a successful `from_primary_path`. -/
theorem from_primary_path_shape : ∀ (s : SemanticPolicy) (info : PathInfo),
    PathInfo.from_primary_path s = Except.ok info →
    (∃ key, s = SemanticPolicy.Key key ∧ info = PathInfo.Single key) ∨
    (∃ k subs keys, s = SemanticPolicy.Threshold k subs ∧
      info = PathInfo.Multi k keys ∧ collect_keys subs = Except.ok keys) := by
  intro s info h
  cases s <;> simp only [PathInfo.from_primary_path] at h <;>
    try exact Except.noConfusion h
  case Key key =>
    cases h
    exact Or.inl ⟨key, rfl, rfl⟩
  case Threshold k subs =>
    cases hc : collect_keys subs with
    | ok keys =>
        rw [hc] at h
        cases h
        exact Or.inr ⟨k, subs, keys, rfl, rfl, hc⟩
    | error e =>
        rw [hc] at h
        exact Except.noConfusion h

/-- A wellformed node accepted by `from_primary_path` yields a structurally
sound path. -/
theorem from_primary_path_wellformed : ∀ (s : SemanticPolicy) (info : PathInfo),
    thresholds_wellformed s = true →
    PathInfo.from_primary_path s = Except.ok info →
    path_wellformed info = true := by
  intro s info htwf h
  rcases from_primary_path_shape s info h with
    ⟨key, rfl, rfl⟩ | ⟨k, subs, keys, rfl, rfl, hc⟩
  · rfl
  · obtain ⟨hk1, hk2, -⟩ := twf_thresh_parts htwf
    obtain ⟨hlen, -⟩ := collect_keys_spec subs keys hc
    simp only [path_wellformed, Bool.and_eq_true, decide_eq_true_eq]
    omega

/-- A key leaf present in a sub list contributes its key to the collected
key leaves. -/
theorem mem_policy_keys_list_of_key : ∀ (subs : List SemanticPolicy)
    (x : DescriptorPublicKey),
    SemanticPolicy.Key x ∈ subs → x ∈ policy_keys_list subs := by
  intro subs x h
  induction subs with
  | nil => cases h
  | cons a t ih =>
      simp only [policy_keys_list]
      rcases List.mem_cons.1 h with heq | h'
      · rw [← heq]
        simp [policy_keys]
      · exact List.mem_append_right _ (ih h')

/-- The key leaves of a member sub are key leaves of the whole list. -/
theorem policy_keys_sub_mem : ∀ (subs : List SemanticPolicy)
    (s : SemanticPolicy), s ∈ subs →
    ∀ x ∈ policy_keys s, x ∈ policy_keys_list subs := by
  intro subs s hs x hx
  induction subs with
  | nil => cases hs
  | cons a t ih =>
      simp only [policy_keys_list]
      rcases List.mem_cons.1 hs with rfl | h'
      · exact List.mem_append_left _ hx
      · exact List.mem_append_right _ (ih h')

/-- Every key of a `from_primary_path` result is a key leaf of the
classified node. -/
theorem from_primary_path_keys : ∀ (s : SemanticPolicy) (info : PathInfo),
    PathInfo.from_primary_path s = Except.ok info →
    ∀ x ∈ path_keys info, x ∈ policy_keys s := by
  intro s info h x hx
  rcases from_primary_path_shape s info h with
    ⟨key, rfl, rfl⟩ | ⟨k, subs, keys, rfl, rfl, hc⟩
  · simpa [policy_keys, path_keys] using hx
  · obtain ⟨-, hm⟩ := collect_keys_spec subs keys hc
    exact mem_policy_keys_list_of_key subs x (hm x hx)

/-- Bookkeeping of the N-of-N loop: on success, the key count plus a
timelock indicator is conserved (each sub is either one key or the unique
timelock). -/
theorem recovery_nofn_loop_length : ∀ (subs : List SemanticPolicy)
    (tl : Option Nat) (acc : List DescriptorPublicKey)
    (tl2 : Option Nat) (keys : List DescriptorPublicKey),
    recovery_nofn_loop subs tl acc = Except.ok (tl2, keys) →
    keys.length + older_ind tl2 =
      acc.length + subs.length + older_ind tl := by
  intro subs
  induction subs with
  | nil =>
      intro tl acc tl2 keys h
      simp only [recovery_nofn_loop] at h
      cases h
      simp
  | cons a t ih =>
      intro tl acc tl2 keys h
      cases a <;> simp only [recovery_nofn_loop] at h <;>
        try exact Except.noConfusion h
      case Key key =>
        have hrec := ih tl (acc ++ [key]) tl2 keys h
        simp only [List.length_append, List.length_cons, List.length_nil]
          at hrec ⊢
        omega
      case Older val =>
        cases tl with
        | some v =>
            simp only [Option.isSome_some, if_true] at h
            exact Except.noConfusion h
        | none =>
            simp only [Option.isSome_none, Bool.false_eq_true, if_false] at h
            cases hcv : csv_check val with
            | ok tv =>
                rw [hcv] at h
                have hrec := ih (some tv) acc tl2 keys h
                simp only [older_ind, List.length_cons] at hrec ⊢
                omega
            | error e =>
                rw [hcv] at h
                exact Except.noConfusion h

/-- Membership of the N-of-N loop: on success, every collected key is from
the accumulator or from a key leaf of the sub list. -/
theorem recovery_nofn_loop_mem : ∀ (subs : List SemanticPolicy)
    (tl : Option Nat) (acc : List DescriptorPublicKey)
    (tl2 : Option Nat) (keys : List DescriptorPublicKey),
    recovery_nofn_loop subs tl acc = Except.ok (tl2, keys) →
    ∀ x ∈ keys, x ∈ acc ∨ SemanticPolicy.Key x ∈ subs := by
  intro subs
  induction subs with
  | nil =>
      intro tl acc tl2 keys h x hx
      simp only [recovery_nofn_loop] at h
      cases h
      exact Or.inl hx
  | cons a t ih =>
      intro tl acc tl2 keys h x hx
      cases a <;> simp only [recovery_nofn_loop] at h <;>
        try exact Except.noConfusion h
      case Key key =>
        rcases ih tl (acc ++ [key]) tl2 keys h x hx with hacc | hsub
        · rcases List.mem_append.1 hacc with hl | hr
          · exact Or.inl hl
          · right
            rw [List.mem_singleton.1 hr]
            exact List.mem_cons_self _ _
        · exact Or.inr (List.mem_cons_of_mem _ hsub)
      case Older val =>
        cases tl with
        | some v =>
            simp only [Option.isSome_some, if_true] at h
            exact Except.noConfusion h
        | none =>
            simp only [Option.isSome_none, Bool.false_eq_true, if_false] at h
            cases hcv : csv_check val with
            | ok tv =>
                rw [hcv] at h
                rcases ih (some tv) acc tl2 keys h x hx with hacc | hsub
                · exact Or.inl hacc
                · exact Or.inr (List.mem_cons_of_mem _ hsub)
            | error e =>
                rw [hcv] at h
                exact Except.noConfusion h

/-- A wellformed node accepted by `from_recovery_path` yields a
structurally sound path. -/
theorem from_recovery_path_wellformed : ∀ (s : SemanticPolicy) (tlv : Nat)
    (info : PathInfo),
    thresholds_wellformed s = true →
    PathInfo.from_recovery_path s = Except.ok (tlv, info) →
    path_wellformed info = true := by
  intro s tlv info htwf h
  cases s <;> simp only [PathInfo.from_recovery_path] at h <;>
    try exact Except.noConfusion h
  case Threshold k subs =>
    by_cases hc1 : k = 2 ∧ subs.length = 2
    · rw [if_pos hc1] at h
      cases hfs : subs.findSome? (fun s =>
          match s with
          | SemanticPolicy.Older val => some (csv_check val)
          | _ => none) with
      | none =>
          rw [hfs] at h
          exact Except.noConfusion h
      | some tlres =>
          rw [hfs] at h
          cases tlres with
          | error e => exact Except.noConfusion h
          | ok tv =>
              have h2 : (match subs.find? (fun s => is_single_key_or_multisig s) with
                  | none => Except.error LianaDescError.IncompatibleDesc
                  | some keys_sub =>
                      match PathInfo.from_primary_path keys_sub with
                      | Except.ok info => Except.ok (tv, info)
                      | Except.error e => Except.error e) =
                  Except.ok (tlv, info) := h
              cases hfd : subs.find? (fun s => is_single_key_or_multisig s) with
              | none =>
                  rw [hfd] at h2
                  exact Except.noConfusion h2
              | some keys_sub =>
                  rw [hfd] at h2
                  have h3 : (match PathInfo.from_primary_path keys_sub with
                      | Except.ok info => Except.ok (tv, info)
                      | Except.error e => Except.error e) =
                      Except.ok (tlv, info) := h2
                  cases hpp : PathInfo.from_primary_path keys_sub with
                  | error e =>
                      rw [hpp] at h3
                      exact Except.noConfusion h3
                  | ok info2 =>
                      rw [hpp] at h3
                      obtain ⟨rfl, rfl⟩ := Prod.mk.inj (Except.ok.inj h3)
                      have hmem := List.mem_of_find?_eq_some hfd
                      exact from_primary_path_wellformed keys_sub info2
                        ((twf_thresh_parts htwf).2.2 keys_sub hmem) hpp
    · rw [if_neg hc1] at h
      by_cases hc2 : k = subs.length ∧ 2 < subs.length
      · rw [if_pos hc2] at h
        cases hloop : recovery_nofn_loop subs none [] with
        | error e =>
            rw [hloop] at h
            exact Except.noConfusion h
        | ok pr =>
            obtain ⟨tlopt, keys⟩ := pr
            rw [hloop] at h
            cases tlopt with
            | none => exact Except.noConfusion h
            | some tv =>
                obtain ⟨rfl, rfl⟩ := Prod.mk.inj (Except.ok.inj h)
                have hlen := recovery_nofn_loop_length subs none [] (some tv)
                  keys hloop
                simp only [older_ind, List.length_nil] at hlen
                simp only [path_wellformed, Bool.and_eq_true, decide_eq_true_eq]
                omega
      · rw [if_neg hc2] at h
        exact Except.noConfusion h

/-- Every key of a `from_recovery_path` result is a key leaf of the
classified node. -/
theorem from_recovery_path_keys : ∀ (s : SemanticPolicy) (tlv : Nat)
    (info : PathInfo),
    PathInfo.from_recovery_path s = Except.ok (tlv, info) →
    ∀ x ∈ path_keys info, x ∈ policy_keys s := by
  intro s tlv info h x hx
  cases s <;> simp only [PathInfo.from_recovery_path] at h <;>
    try exact Except.noConfusion h
  case Threshold k subs =>
    by_cases hc1 : k = 2 ∧ subs.length = 2
    · rw [if_pos hc1] at h
      cases hfs : subs.findSome? (fun s =>
          match s with
          | SemanticPolicy.Older val => some (csv_check val)
          | _ => none) with
      | none =>
          rw [hfs] at h
          exact Except.noConfusion h
      | some tlres =>
          rw [hfs] at h
          cases tlres with
          | error e => exact Except.noConfusion h
          | ok tv =>
              have h2 : (match subs.find? (fun s => is_single_key_or_multisig s) with
                  | none => Except.error LianaDescError.IncompatibleDesc
                  | some keys_sub =>
                      match PathInfo.from_primary_path keys_sub with
                      | Except.ok info => Except.ok (tv, info)
                      | Except.error e => Except.error e) =
                  Except.ok (tlv, info) := h
              cases hfd : subs.find? (fun s => is_single_key_or_multisig s) with
              | none =>
                  rw [hfd] at h2
                  exact Except.noConfusion h2
              | some keys_sub =>
                  rw [hfd] at h2
                  have h3 : (match PathInfo.from_primary_path keys_sub with
                      | Except.ok info => Except.ok (tv, info)
                      | Except.error e => Except.error e) =
                      Except.ok (tlv, info) := h2
                  cases hpp : PathInfo.from_primary_path keys_sub with
                  | error e =>
                      rw [hpp] at h3
                      exact Except.noConfusion h3
                  | ok info2 =>
                      rw [hpp] at h3
                      obtain ⟨rfl, rfl⟩ := Prod.mk.inj (Except.ok.inj h3)
                      have hmem := List.mem_of_find?_eq_some hfd
                      exact policy_keys_sub_mem subs keys_sub hmem x
                        (from_primary_path_keys keys_sub info2 hpp x hx)
    · rw [if_neg hc1] at h
      by_cases hc2 : k = subs.length ∧ 2 < subs.length
      · rw [if_pos hc2] at h
        cases hloop : recovery_nofn_loop subs none [] with
        | error e =>
            rw [hloop] at h
            exact Except.noConfusion h
        | ok pr =>
            obtain ⟨tlopt, keys⟩ := pr
            rw [hloop] at h
            cases tlopt with
            | none => exact Except.noConfusion h
            | some tv =>
                obtain ⟨rfl, rfl⟩ := Prod.mk.inj (Except.ok.inj h)
                rcases recovery_nofn_loop_mem subs none [] (some tv) keys hloop
                    x hx with hacc | hsub
                · exact absurd hacc (List.not_mem_nil x)
                · exact mem_policy_keys_list_of_key subs x hsub
      · rw [if_neg hc2] at h
        exact Except.noConfusion h

/-- Inversion of a successful `from_multipath_descriptor` run: every key of
the Miniscript is valid, the lifted policy is a two-sub `Threshold(1, _)`,
and the two paths come from classifying two of its subs. -/
theorem from_multipath_descriptor_ok_inv :
    ∀ (pks : List DescriptorPublicKey) (policy : SemanticPolicy)
      (lp : LianaPolicy),
    LianaPolicy.from_multipath_descriptor (mk_desc pks policy) =
      Except.ok lp →
    (∀ pk ∈ pks, is_valid_desc_key pk = true) ∧
    ∃ subs prim_sub reco_sub,
      policy = SemanticPolicy.Threshold 1 subs ∧
      prim_sub ∈ subs ∧ reco_sub ∈ subs ∧
      PathInfo.from_primary_path prim_sub = Except.ok lp.primary_path ∧
      PathInfo.from_recovery_path reco_sub = Except.ok lp.recovery_path := by
  intro pks policy lp h
  simp only [LianaPolicy.from_multipath_descriptor, mk_desc] at h
  split at h <;> try exact Except.noConfusion h
  rename_i heqfind
  have hvalid : ∀ pk ∈ pks, is_valid_desc_key pk = true := by
    intro pk hpk
    have hnone := List.find?_eq_none.1 heqfind pk hpk
    simpa using hnone
  refine ⟨hvalid, ?_⟩
  split at h <;> try exact Except.noConfusion h
  rename_i subs
  split at h <;> try exact Except.noConfusion h
  rename_i hne
  have hlen2 : subs.length = 2 := not_not.1 hne
  obtain ⟨s1, s2, rfl⟩ := List.length_eq_two.1 hlen2
  cases hb1 : is_single_key_or_multisig s1 with
  | false =>
      cases hb2 : is_single_key_or_multisig s2 with
      | false =>
          have hfold : ([s1, s2].foldl
              (fun (acc : Option SemanticPolicy × Option SemanticPolicy) sub =>
                if is_single_key_or_multisig sub then (some sub, acc.2)
                else (acc.1, some sub)) (none, none)) = (none, some s2) := by
            simp [List.foldl, hb1, hb2]
          rw [hfold] at h
          exact Except.noConfusion h
      | true =>
          have hfold : ([s1, s2].foldl
              (fun (acc : Option SemanticPolicy × Option SemanticPolicy) sub =>
                if is_single_key_or_multisig sub then (some sub, acc.2)
                else (acc.1, some sub)) (none, none)) = (some s2, some s1) := by
            simp [List.foldl, hb1, hb2]
          rw [hfold] at h
          have h4 : (match PathInfo.from_primary_path s2 with
              | Except.error e => Except.error e
              | Except.ok primary_path =>
                  match PathInfo.from_recovery_path s1 with
                  | Except.error e => Except.error e
                  | Except.ok recovery_path =>
                      Except.ok { primary_path := primary_path,
                                  recovery_path := recovery_path }) =
              Except.ok lp := h
          cases hpp : PathInfo.from_primary_path s2 with
          | error e =>
              rw [hpp] at h4
              exact Except.noConfusion h4
          | ok p =>
              rw [hpp] at h4
              have h5 : (match PathInfo.from_recovery_path s1 with
                  | Except.error e => Except.error e
                  | Except.ok recovery_path =>
                      Except.ok { primary_path := p,
                                  recovery_path := recovery_path }) =
                  Except.ok lp := h4
              cases hrp : PathInfo.from_recovery_path s1 with
              | error e =>
                  rw [hrp] at h5
                  exact Except.noConfusion h5
              | ok r =>
                  rw [hrp] at h5
                  have h6 : lp = { primary_path := p, recovery_path := r } :=
                    (Except.ok.inj h5).symm
                  subst h6
                  exact ⟨[s1, s2], s2, s1, rfl, by simp, by simp, hpp, hrp⟩
  | true =>
      cases hb2 : is_single_key_or_multisig s2 with
      | true =>
          have hfold : ([s1, s2].foldl
              (fun (acc : Option SemanticPolicy × Option SemanticPolicy) sub =>
                if is_single_key_or_multisig sub then (some sub, acc.2)
                else (acc.1, some sub)) (none, none)) = (some s2, none) := by
            simp [List.foldl, hb1, hb2]
          rw [hfold] at h
          exact Except.noConfusion h
      | false =>
          have hfold : ([s1, s2].foldl
              (fun (acc : Option SemanticPolicy × Option SemanticPolicy) sub =>
                if is_single_key_or_multisig sub then (some sub, acc.2)
                else (acc.1, some sub)) (none, none)) = (some s1, some s2) := by
            simp [List.foldl, hb1, hb2]
          rw [hfold] at h
          have h4 : (match PathInfo.from_primary_path s1 with
              | Except.error e => Except.error e
              | Except.ok primary_path =>
                  match PathInfo.from_recovery_path s2 with
                  | Except.error e => Except.error e
                  | Except.ok recovery_path =>
                      Except.ok { primary_path := primary_path,
                                  recovery_path := recovery_path }) =
              Except.ok lp := h
          cases hpp : PathInfo.from_primary_path s1 with
          | error e =>
              rw [hpp] at h4
              exact Except.noConfusion h4
          | ok p =>
              rw [hpp] at h4
              have h5 : (match PathInfo.from_recovery_path s2 with
                  | Except.error e => Except.error e
                  | Except.ok recovery_path =>
                      Except.ok { primary_path := p,
                                  recovery_path := recovery_path }) =
                  Except.ok lp := h4
              cases hrp : PathInfo.from_recovery_path s2 with
              | error e =>
                  rw [hrp] at h5
                  exact Except.noConfusion h5
              | ok r =>
                  rw [hrp] at h5
                  have h6 : lp = { primary_path := p, recovery_path := r } :=
                    (Except.ok.inj h5).symm
                  subst h6
                  exact ⟨[s1, s2], s1, s2, rfl, by simp, by simp, hpp, hrp⟩

/-- Counterexample to C1 as frozen: with the lift output an arbitrary
semantic policy tree, the builder accepts a descriptor whose primary branch
is the degenerate `Threshold(0, [key])`, producing `Multi(0, [key])` with
`k = 0 < 1`. -/
theorem claim_c1_counterexample :
    LianaPolicy.from_multipath_descriptor cex_desc =
      Except.ok { primary_path := PathInfo.Multi 0 [ex_key_a],
                  recovery_path := (144, PathInfo.Single ex_key_b) } ∧
    path_wellformed (PathInfo.Multi 0 [ex_key_a]) = false := ⟨rfl, rfl⟩

/-- C1 (amended): under the structural invariant of real lift/normalize
outputs — every `Threshold(k, subs)` node of the lifted policy satisfies
`1 ≤ k ≤ len(subs)` — every accepted descriptor yields a `primary_path`
and a recovery `PathInfo` that are `Single` or `Multi(k, keys)` with
`1 ≤ k`, `k ≤ len(keys)` and `1 ≤ len(keys)`. -/
theorem claim_c1_thm : ∀ (pks : List DescriptorPublicKey)
    (policy : SemanticPolicy) (lp : LianaPolicy),
    thresholds_wellformed policy = true →
    LianaPolicy.from_multipath_descriptor (mk_desc pks policy) =
      Except.ok lp →
    path_wellformed lp.primary_path = true ∧
    path_wellformed lp.recovery_path.2 = true := by
  intro pks policy lp htwf h
  obtain ⟨-, subs, prim_sub, reco_sub, rfl, hpm, hrm, hpp, hrp⟩ :=
    from_multipath_descriptor_ok_inv pks policy lp h
  have hsubs := (twf_thresh_parts htwf).2.2
  exact ⟨from_primary_path_wellformed prim_sub lp.primary_path
      (hsubs prim_sub hpm) hpp,
    from_recovery_path_wellformed reco_sub lp.recovery_path.1
      lp.recovery_path.2 (hsubs reco_sub hrm) hrp⟩

/-- Witness for the amended C1 at a concrete wellformed descriptor. -/
theorem claim_c1_witness :
    path_wellformed (PathInfo.Single ex_key_a) = true ∧
    path_wellformed (PathInfo.Single ex_key_b) = true :=
  claim_c1_thm [ex_key_a, ex_key_b] wf_policy
    { primary_path := PathInfo.Single ex_key_a,
      recovery_path := (144, PathInfo.Single ex_key_b) }
    (by decide) rfl

/-- Membership in a successfully collected origin list is exactly "origin
of one of the keys". -/
theorem collect_origins_mem : ∀ (keys : List DescriptorPublicKey)
    (os : List KeyOrigin), collect_origins keys = some os →
    ∀ o, o ∈ os ↔ ∃ key ∈ keys, key_origin key = some o := by
  intro keys
  induction keys with
  | nil =>
      intro os h o
      simp only [collect_origins] at h
      cases h
      simp
  | cons key rest ih =>
      intro os h o
      simp only [collect_origins] at h
      cases hko : key_origin key with
      | none =>
          rw [hko] at h
          exact Option.noConfusion h
      | some o1 =>
          rw [hko] at h
          cases hrec : collect_origins rest with
          | none =>
              rw [hrec] at h
              exact Option.noConfusion h
          | some os1 =>
              rw [hrec] at h
              obtain rfl : os = o1 :: os1 := (Option.some.inj h).symm
              constructor
              · intro hmem
                rcases List.mem_cons.1 hmem with rfl | hmem2
                · exact ⟨key, List.mem_cons_self _ _, hko⟩
                · obtain ⟨key2, hk2, ho2⟩ := (ih os1 hrec o).1 hmem2
                  exact ⟨key2, List.mem_cons_of_mem _ hk2, ho2⟩
              · rintro ⟨key2, hk2, ho2⟩
                rcases List.mem_cons.1 hk2 with rfl | hk2b
                · rw [hko] at ho2
                  cases ho2
                  exact List.mem_cons_self _ _
                · exact List.mem_cons_of_mem _
                    ((ih os1 hrec o).2 ⟨key2, hk2b, ho2⟩)

/-- Collecting origins panics (models as `none`) as soon as one key has no
origin. -/
theorem collect_origins_none : ∀ (keys : List DescriptorPublicKey)
    (key : DescriptorPublicKey), key ∈ keys → key_origin key = none →
    collect_origins keys = none := by
  intro keys key
  induction keys with
  | nil =>
      intro hk _
      cases hk
  | cons a rest ih =>
      intro hk hko
      simp only [collect_origins]
      rcases List.mem_cons.1 hk with rfl | hk2
      · rw [hko]
      · cases ha : key_origin a with
        | none => rfl
        | some o => rw [ih hk2 hko]

/-- Collecting origins succeeds when every key has an origin. -/
theorem collect_origins_isSome : ∀ keys : List DescriptorPublicKey,
    (∀ key ∈ keys, (key_origin key).isSome = true) →
    (collect_origins keys).isSome = true := by
  intro keys h
  induction keys with
  | nil => rfl
  | cons a rest ih =>
      simp only [collect_origins]
      have ha := h a (List.mem_cons_self a rest)
      cases hao : key_origin a with
      | none =>
          rw [hao] at ha
          exact Bool.noConfusion ha
      | some o =>
          have hrest := ih (fun k hk => h k (List.mem_cons_of_mem a hk))
          cases hre : collect_origins rest with
          | none =>
              rw [hre] at hrest
              exact Bool.noConfusion hrest
          | some os => rfl

/-- A key accepted by the Key Validator carries an origin. -/
theorem valid_key_origin_isSome : ∀ key : DescriptorPublicKey,
    is_valid_desc_key key = true → (key_origin key).isSome = true := by
  intro key h
  cases key with
  | Single info => exact Bool.noConfusion h
  | XPub info => exact Bool.noConfusion h
  | MultiXPub xpub =>
      simp only [is_valid_desc_key, Bool.and_eq_true] at h
      exact h.1.1.1.1

/-- A path whose keys all carry origins never hits the `thresh_origins`
panic. -/
theorem thresh_origins_isSome_of_keys : ∀ p : PathInfo,
    (∀ x ∈ path_keys p, (key_origin x).isSome = true) →
    PathInfo.thresh_origins p ≠ none := by
  intro p h
  cases p with
  | Single key =>
      have hk := h key (by simp [path_keys])
      simp only [PathInfo.thresh_origins]
      cases hko : key_origin key with
      | none =>
          rw [hko] at hk
          exact Bool.noConfusion hk
      | some o => simp
  | Multi k keys =>
      have hs := collect_origins_isSome keys
        (fun x hx => h x (by simpa [path_keys] using hx))
      simp only [PathInfo.thresh_origins]
      cases hco : collect_origins keys with
      | none =>
          rw [hco] at hs
          exact Bool.noConfusion hs
      | some os => simp

/-- C7: `thresh_origins` returns `(1, {origin})` for `Single` and `(k, the
set of origins of all keys)` for `Multi(k, keys)`; it aborts (modelled
`none`) when some key lacks an origin; and that abort is unreachable for
the paths of any policy built by `from_multipath_descriptor`, granted the
external guarantee that every key of the lifted policy appears among the
Miniscript's keys. -/
theorem claim_c7 :
    (∀ (key : DescriptorPublicKey) (o : KeyOrigin),
      key_origin key = some o →
      PathInfo.thresh_origins (PathInfo.Single key) = some (1, {o})) ∧
    (∀ (k : Nat) (keys : List DescriptorPublicKey) (t : Nat)
       (s : Finset KeyOrigin),
      PathInfo.thresh_origins (PathInfo.Multi k keys) = some (t, s) →
      t = k ∧ ∀ o, o ∈ s ↔ ∃ key ∈ keys, key_origin key = some o) ∧
    (∀ key : DescriptorPublicKey, key_origin key = none →
      PathInfo.thresh_origins (PathInfo.Single key) = none) ∧
    (∀ (k : Nat) (keys : List DescriptorPublicKey)
       (key : DescriptorPublicKey), key ∈ keys → key_origin key = none →
      PathInfo.thresh_origins (PathInfo.Multi k keys) = none) ∧
    (∀ (pks : List DescriptorPublicKey) (policy : SemanticPolicy)
       (lp : LianaPolicy),
      (∀ key ∈ policy_keys policy, key ∈ pks) →
      LianaPolicy.from_multipath_descriptor (mk_desc pks policy) =
        Except.ok lp →
      PathInfo.thresh_origins lp.primary_path ≠ none ∧
      PathInfo.thresh_origins lp.recovery_path.2 ≠ none) := by
  refine ⟨?_, ?_, ?_, ?_, ?_⟩
  · intro key o hko
    simp only [PathInfo.thresh_origins]
    rw [hko]
  · intro k keys t s h
    simp only [PathInfo.thresh_origins] at h
    cases hco : collect_origins keys with
    | none =>
        rw [hco] at h
        exact Option.noConfusion h
    | some os =>
        rw [hco] at h
        obtain ⟨rfl, rfl⟩ := Prod.mk.inj (Option.some.inj h)
        refine ⟨rfl, fun o => ?_⟩
        rw [List.mem_toFinset]
        exact collect_origins_mem keys os hco o
  · intro key hko
    simp only [PathInfo.thresh_origins]
    rw [hko]
  · intro k keys key hk hko
    simp only [PathInfo.thresh_origins]
    rw [collect_origins_none keys key hk hko]
  · intro pks policy lp hlift hok
    obtain ⟨hvalid, subs, prim_sub, reco_sub, rfl, hpm, hrm, hpp, hrp⟩ :=
      from_multipath_descriptor_ok_inv pks policy lp hok
    have horig : ∀ (s0 : SemanticPolicy), s0 ∈ subs →
        ∀ x, x ∈ policy_keys s0 → (key_origin x).isSome = true := by
      intro s0 hs0 x hx
      have hxp : x ∈ policy_keys (SemanticPolicy.Threshold 1 subs) :=
        policy_keys_sub_mem subs s0 hs0 x hx
      exact valid_key_origin_isSome x (hvalid x (hlift x hxp))
    constructor
    · exact thresh_origins_isSome_of_keys lp.primary_path
        (fun x hx => horig prim_sub hpm x
          (from_primary_path_keys prim_sub lp.primary_path hpp x hx))
    · exact thresh_origins_isSome_of_keys lp.recovery_path.2
        (fun x hx => horig reco_sub hrm x
          (from_recovery_path_keys reco_sub lp.recovery_path.1
            lp.recovery_path.2 hrp x hx))

/-- Witness for C7 at a concrete origin-tagged key. -/
theorem claim_c7_witness :
    PathInfo.thresh_origins (PathInfo.Single ex_key_a) =
      some (1, {ex_origin_a}) :=
  claim_c7.1 ex_key_a ex_origin_a rfl


/-- Lookup at a matching head entry. -/
theorem lookup_count_cons_self (o : KeyOrigin) (c : Nat)
    (m : List (KeyOrigin × Nat)) : lookup_count ((o, c) :: m) o = c := by
  simp [lookup_count, List.find?_cons_of_pos]

/-- Lookup skips a non-matching head entry. -/
theorem lookup_count_cons_ne (e : KeyOrigin × Nat)
    (m : List (KeyOrigin × Nat)) (o : KeyOrigin) (h : e.1 ≠ o) :
    lookup_count (e :: m) o = lookup_count m o := by
  simp only [lookup_count]
  rw [List.find?_cons_of_neg]
  simp [h]

/-- Unfolding of `bump_count` at a matching head entry. -/
theorem bump_count_cons_pos (e1 : KeyOrigin) (e2 : Nat)
    (rest : List (KeyOrigin × Nat)) (o : KeyOrigin) (h : e1 = o) :
    bump_count ((e1, e2) :: rest) o = (e1, e2 + 1) :: rest := by
  simp [bump_count, h]

/-- Unfolding of `bump_count` at a non-matching head entry. -/
theorem bump_count_cons_neg (e1 : KeyOrigin) (e2 : Nat)
    (rest : List (KeyOrigin × Nat)) (o : KeyOrigin) (h : e1 ≠ o) :
    bump_count ((e1, e2) :: rest) o = (e1, e2) :: bump_count rest o := by
  simp [bump_count, h]

/-- `bump_count` increments the bumped origin's counter by one. -/
theorem bump_count_lookup_self : ∀ (m : List (KeyOrigin × Nat))
    (o : KeyOrigin),
    lookup_count (bump_count m o) o = lookup_count m o + 1 := by
  intro m o
  induction m with
  | nil => simp [bump_count, lookup_count_cons_self, lookup_count, List.find?]
  | cons e rest ih =>
      obtain ⟨e1, e2⟩ := e
      by_cases he : e1 = o
      · subst he
        rw [bump_count_cons_pos e1 e2 rest e1 rfl,
          lookup_count_cons_self, lookup_count_cons_self]
      · rw [bump_count_cons_neg e1 e2 rest o he,
          lookup_count_cons_ne ⟨e1, e2⟩ _ o he,
          lookup_count_cons_ne ⟨e1, e2⟩ _ o he]
        exact ih

/-- `bump_count` leaves every other origin's counter unchanged. -/
theorem bump_count_lookup_ne : ∀ (m : List (KeyOrigin × Nat))
    (o o2 : KeyOrigin), o2 ≠ o →
    lookup_count (bump_count m o) o2 = lookup_count m o2 := by
  intro m o o2 hne
  induction m with
  | nil =>
      simp only [bump_count]
      rw [lookup_count_cons_ne ⟨o, 1⟩ _ o2 (fun hh => hne hh.symm)]
  | cons e rest ih =>
      obtain ⟨e1, e2⟩ := e
      by_cases he : e1 = o
      · subst he
        rw [bump_count_cons_pos e1 e2 rest e1 rfl,
          lookup_count_cons_ne ⟨e1, e2 + 1⟩ _ o2 (fun hh => hne hh.symm),
          lookup_count_cons_ne ⟨e1, e2⟩ _ o2 (fun hh => hne hh.symm)]
      · rw [bump_count_cons_neg e1 e2 rest o he]
        by_cases he2 : e1 = o2
        · subst he2
          rw [lookup_count_cons_self, lookup_count_cons_self]
        · rw [lookup_count_cons_ne ⟨e1, e2⟩ _ o2 he2,
            lookup_count_cons_ne ⟨e1, e2⟩ _ o2 he2]
          exact ih

/-- `bump_count` increases the total of the counters by one. -/
theorem bump_count_sum : ∀ (m : List (KeyOrigin × Nat)) (o : KeyOrigin),
    sum_counts (bump_count m o) = sum_counts m + 1 := by
  intro m o
  induction m with
  | nil => simp [bump_count, sum_counts]
  | cons e rest ih =>
      obtain ⟨e1, e2⟩ := e
      by_cases he : e1 = o
      · rw [bump_count_cons_pos e1 e2 rest o he]
        simp only [sum_counts, List.map_cons, List.sum_cons]
        omega
      · rw [bump_count_cons_neg e1 e2 rest o he]
        simp only [sum_counts, List.map_cons, List.sum_cons] at ih ⊢
        omega

/-- `bump_count` keeps all counters at least 1. -/
theorem bump_count_pos : ∀ (m : List (KeyOrigin × Nat)) (o : KeyOrigin),
    (∀ e ∈ m, 1 ≤ e.2) → ∀ e ∈ bump_count m o, 1 ≤ e.2 := by
  intro m o
  induction m with
  | nil =>
      intro _ e he
      simp only [bump_count] at he
      rcases List.mem_singleton.1 he with rfl
      exact Nat.le_refl 1
  | cons a rest ih =>
      intro hm e he
      obtain ⟨a1, a2⟩ := a
      by_cases ha : a1 = o
      · rw [bump_count_cons_pos a1 a2 rest o ha] at he
        rcases List.mem_cons.1 he with rfl | he2
        · simp
        · exact hm e (List.mem_cons_of_mem _ he2)
      · rw [bump_count_cons_neg a1 a2 rest o ha] at he
        rcases List.mem_cons.1 he with rfl | he2
        · exact hm _ (List.mem_cons_self _ _)
        · exact ih (fun x hx => hm x (List.mem_cons_of_mem _ hx)) e he2

/-- Every origin keyed in `bump_count m o` comes from `m` or is `o`. -/
theorem bump_count_keys : ∀ (m : List (KeyOrigin × Nat)) (o : KeyOrigin)
    (x : KeyOrigin), x ∈ (bump_count m o).map Prod.fst →
    x ∈ m.map Prod.fst ∨ x = o := by
  intro m o x
  induction m with
  | nil =>
      intro hx
      simp only [bump_count, List.map_cons, List.map_nil] at hx
      exact Or.inr (List.mem_singleton.1 hx)
  | cons a rest ih =>
      intro hx
      obtain ⟨a1, a2⟩ := a
      by_cases ha : a1 = o
      · rw [bump_count_cons_pos a1 a2 rest o ha] at hx
        simp only [List.map_cons] at hx ⊢
        rcases List.mem_cons.1 hx with rfl | hx2
        · exact Or.inl (List.mem_cons_self _ _)
        · exact Or.inl (List.mem_cons_of_mem _ hx2)
      · rw [bump_count_cons_neg a1 a2 rest o ha] at hx
        simp only [List.map_cons] at hx ⊢
        rcases List.mem_cons.1 hx with rfl | hx2
        · exact Or.inl (List.mem_cons_self _ _)
        · rcases ih hx2 with hin | rfl
          · exact Or.inl (List.mem_cons_of_mem _ hin)
          · exact Or.inr rfl

/-- Loop step: a signer with a short derivation path is skipped. -/
theorem spend_info_loop_cons_short (origins : Finset KeyOrigin)
    (fg : Fingerprint) (dp : DerivationPath)
    (rest : List (Fingerprint × DerivationPath)) (sc : Nat)
    (m : List (KeyOrigin × Nat)) (h : dp.length < 2) :
    spend_info_loop origins ((fg, dp) :: rest) sc m =
      spend_info_loop origins rest sc m := by
  simp [spend_info_loop, if_pos h]

/-- Loop step: a signer whose derived origin is one of the path's origins
counts. -/
theorem spend_info_loop_cons_hit (origins : Finset KeyOrigin)
    (fg : Fingerprint) (dp : DerivationPath)
    (rest : List (Fingerprint × DerivationPath)) (sc : Nat)
    (m : List (KeyOrigin × Nat)) (h1 : ¬dp.length < 2)
    (h2 : ((fg, dp.take (dp.length - 2)) : KeyOrigin) ∈ origins) :
    spend_info_loop origins ((fg, dp) :: rest) sc m =
      spend_info_loop origins rest (sc + 1)
        (bump_count m (fg, dp.take (dp.length - 2))) := by
  simp [spend_info_loop, if_neg h1, if_pos h2]

/-- Loop step: a signer whose derived origin is foreign is skipped. -/
theorem spend_info_loop_cons_miss (origins : Finset KeyOrigin)
    (fg : Fingerprint) (dp : DerivationPath)
    (rest : List (Fingerprint × DerivationPath)) (sc : Nat)
    (m : List (KeyOrigin × Nat)) (_h1 : ¬dp.length < 2)
    (h2 : ((fg, dp.take (dp.length - 2)) : KeyOrigin) ∉ origins) :
    spend_info_loop origins ((fg, dp) :: rest) sc m =
      spend_info_loop origins rest sc m := by
  simp [spend_info_loop, if_neg h2]

/-- The loop's signature counter implements the spec-mirror count. -/
theorem spend_info_loop_sigs (origins : Finset KeyOrigin) :
    ∀ (signers : List (Fingerprint × DerivationPath)) (sc : Nat)
      (m : List (KeyOrigin × Nat)),
    (spend_info_loop origins signers sc m).1 =
      sc + count_sigs origins signers := by
  intro signers
  induction signers with
  | nil =>
      intro sc m
      simp [spend_info_loop, count_sigs]
  | cons s rest ih =>
      intro sc m
      obtain ⟨fg, dp⟩ := s
      by_cases h1 : dp.length < 2
      · rw [spend_info_loop_cons_short origins fg dp rest sc m h1, ih]
        have hn : ¬2 ≤ dp.length := Nat.not_le.2 h1
        have hc : count_sigs origins ((fg, dp) :: rest) =
            count_sigs origins rest := by
          simp [count_sigs, List.filter_cons, hn]
        rw [hc]
      · have hn : 2 ≤ dp.length := Nat.not_lt.1 h1
        by_cases h2 : ((fg, dp.take (dp.length - 2)) : KeyOrigin) ∈ origins
        · rw [spend_info_loop_cons_hit origins fg dp rest sc m h1 h2, ih]
          have hc : count_sigs origins ((fg, dp) :: rest) =
              count_sigs origins rest + 1 := by
            simp [count_sigs, List.filter_cons, hn, signer_origin, h2]
          rw [hc]
          omega
        · rw [spend_info_loop_cons_miss origins fg dp rest sc m h1 h2, ih]
          have hc : count_sigs origins ((fg, dp) :: rest) =
              count_sigs origins rest := by
            simp [count_sigs, List.filter_cons, hn, signer_origin, h2]
          rw [hc]

/-- The loop's per-origin counters implement the spec-mirror per-origin
count. -/
theorem spend_info_loop_lookup (origins : Finset KeyOrigin) :
    ∀ (signers : List (Fingerprint × DerivationPath)) (sc : Nat)
      (m : List (KeyOrigin × Nat)) (o : KeyOrigin),
    lookup_count (spend_info_loop origins signers sc m).2 o =
      lookup_count m o + count_for origins signers o := by
  intro signers
  induction signers with
  | nil =>
      intro sc m o
      simp [spend_info_loop, count_for]
  | cons s rest ih =>
      intro sc m o
      obtain ⟨fg, dp⟩ := s
      by_cases h1 : dp.length < 2
      · rw [spend_info_loop_cons_short origins fg dp rest sc m h1, ih]
        have hn : ¬2 ≤ dp.length := Nat.not_le.2 h1
        have hc : count_for origins ((fg, dp) :: rest) o =
            count_for origins rest o := by
          simp [count_for, List.filter_cons, hn]
        rw [hc]
      · have hn : 2 ≤ dp.length := Nat.not_lt.1 h1
        by_cases h2 : ((fg, dp.take (dp.length - 2)) : KeyOrigin) ∈ origins
        · rw [spend_info_loop_cons_hit origins fg dp rest sc m h1 h2, ih]
          by_cases ho : o = (fg, dp.take (dp.length - 2))
          · rw [ho, bump_count_lookup_self]
            have hc : count_for origins ((fg, dp) :: rest)
                (fg, dp.take (dp.length - 2)) =
                count_for origins rest (fg, dp.take (dp.length - 2)) + 1 := by
              simp [count_for, List.filter_cons, hn, signer_origin, h2]
            rw [hc]
            omega
          · rw [bump_count_lookup_ne m _ o ho]
            have hc : count_for origins ((fg, dp) :: rest) o =
                count_for origins rest o := by
              simp [count_for, List.filter_cons, signer_origin, Ne.symm ho]
            rw [hc]
        · rw [spend_info_loop_cons_miss origins fg dp rest sc m h1 h2, ih]
          have hc : count_for origins ((fg, dp) :: rest) o =
              count_for origins rest o := by
            by_cases ho : o = (fg, dp.take (dp.length - 2))
            · rw [ho]
              simp [count_for, List.filter_cons, signer_origin, h2]
            · simp [count_for, List.filter_cons, signer_origin, Ne.symm ho]
          rw [hc]

/-- The loop's counter total tracks its signature counter. -/
theorem spend_info_loop_sum (origins : Finset KeyOrigin) :
    ∀ (signers : List (Fingerprint × DerivationPath)) (sc : Nat)
      (m : List (KeyOrigin × Nat)),
    sum_counts (spend_info_loop origins signers sc m).2 =
      sum_counts m + count_sigs origins signers := by
  intro signers
  induction signers with
  | nil =>
      intro sc m
      simp [spend_info_loop, count_sigs]
  | cons s rest ih =>
      intro sc m
      obtain ⟨fg, dp⟩ := s
      by_cases h1 : dp.length < 2
      · rw [spend_info_loop_cons_short origins fg dp rest sc m h1, ih]
        have hn : ¬2 ≤ dp.length := Nat.not_le.2 h1
        have hc : count_sigs origins ((fg, dp) :: rest) =
            count_sigs origins rest := by
          simp [count_sigs, List.filter_cons, hn]
        rw [hc]
      · have hn : 2 ≤ dp.length := Nat.not_lt.1 h1
        by_cases h2 : ((fg, dp.take (dp.length - 2)) : KeyOrigin) ∈ origins
        · rw [spend_info_loop_cons_hit origins fg dp rest sc m h1 h2, ih,
            bump_count_sum]
          have hc : count_sigs origins ((fg, dp) :: rest) =
              count_sigs origins rest + 1 := by
            simp [count_sigs, List.filter_cons, hn, signer_origin, h2]
          rw [hc]
          omega
        · rw [spend_info_loop_cons_miss origins fg dp rest sc m h1 h2, ih]
          have hc : count_sigs origins ((fg, dp) :: rest) =
              count_sigs origins rest := by
            simp [count_sigs, List.filter_cons, hn, signer_origin, h2]
          rw [hc]

/-- The loop keeps every per-origin counter at least 1. -/
theorem spend_info_loop_pos (origins : Finset KeyOrigin) :
    ∀ (signers : List (Fingerprint × DerivationPath)) (sc : Nat)
      (m : List (KeyOrigin × Nat)),
    (∀ e ∈ m, 1 ≤ e.2) →
    ∀ e ∈ (spend_info_loop origins signers sc m).2, 1 ≤ e.2 := by
  intro signers
  induction signers with
  | nil =>
      intro sc m hm e he
      simp only [spend_info_loop] at he
      exact hm e he
  | cons s rest ih =>
      intro sc m hm e he
      obtain ⟨fg, dp⟩ := s
      by_cases h1 : dp.length < 2
      · rw [spend_info_loop_cons_short origins fg dp rest sc m h1] at he
        exact ih sc m hm e he
      · by_cases h2 : ((fg, dp.take (dp.length - 2)) : KeyOrigin) ∈ origins
        · rw [spend_info_loop_cons_hit origins fg dp rest sc m h1 h2] at he
          exact ih (sc + 1) _ (bump_count_pos m _ hm) e he
        · rw [spend_info_loop_cons_miss origins fg dp rest sc m h1 h2] at he
          exact ih sc m hm e he

/-- Every origin keyed by the loop's counter map comes from the initial
map or from the path's origin set. -/
theorem spend_info_loop_keys (origins : Finset KeyOrigin) :
    ∀ (signers : List (Fingerprint × DerivationPath)) (sc : Nat)
      (m : List (KeyOrigin × Nat)) (x : KeyOrigin),
    x ∈ ((spend_info_loop origins signers sc m).2).map Prod.fst →
    x ∈ m.map Prod.fst ∨ x ∈ origins := by
  intro signers
  induction signers with
  | nil =>
      intro sc m x hx
      simp only [spend_info_loop] at hx
      exact Or.inl hx
  | cons s rest ih =>
      intro sc m x hx
      obtain ⟨fg, dp⟩ := s
      by_cases h1 : dp.length < 2
      · rw [spend_info_loop_cons_short origins fg dp rest sc m h1] at hx
        exact ih sc m x hx
      · by_cases h2 : ((fg, dp.take (dp.length - 2)) : KeyOrigin) ∈ origins
        · rw [spend_info_loop_cons_hit origins fg dp rest sc m h1 h2] at hx
          rcases ih (sc + 1) _ x hx with hin | hin
          · rcases bump_count_keys m _ x hin with hin2 | rfl
            · exact Or.inl hin2
            · exact Or.inr h2
          · exact Or.inr hin
        · rw [spend_info_loop_cons_miss origins fg dp rest sc m h1 h2] at hx
          exact ih sc m x hx

/-- C2: `spend_info` ignores signers with fewer than 2 derivation
components; for the rest it attributes the signature to the origin obtained
by dropping the final two indexes, incrementing `sigs_count` and that
origin's counter exactly when the derived origin is in the path's origin
set; on the concrete `Multi(2, [keyA, keyB, keyC])` scenario with two
signatures from originA and one from an unrelated originD it returns
`threshold = 2`, `sigs_count = 2`, `signed_pubkeys = {originA: 2}`. -/
theorem claim_c2 :
    (∀ (p : PathInfo) (t : Nat) (origins : Finset KeyOrigin)
       (signers : List (Fingerprint × DerivationPath)),
      p.thresh_origins = some (t, origins) →
      ∃ info, p.spend_info signers = some info ∧
        info.threshold = t ∧
        info.sigs_count = count_sigs origins signers ∧
        ∀ o, lookup_count info.signed_pubkeys o =
          count_for origins signers o) ∧
    (∀ (p : PathInfo) (s : Fingerprint × DerivationPath)
       (signers : List (Fingerprint × DerivationPath)),
      s.2.length < 2 → p.spend_info (s :: signers) = p.spend_info signers) ∧
    PathInfo.spend_info (PathInfo.Multi 2 [ex_key_a, ex_key_b, ex_key_c])
      ex_signers =
      some { threshold := 2, sigs_count := 2,
             signed_pubkeys := [(ex_origin_a, 2)] } := by
  refine ⟨?_, ?_, ?_⟩
  · intro p t origins signers hto
    refine ⟨{ threshold := t,
              sigs_count := (spend_info_loop origins signers 0 []).1,
              signed_pubkeys := (spend_info_loop origins signers 0 []).2 },
        ?_, rfl, ?_, ?_⟩
    · simp [PathInfo.spend_info, hto]
    · have hs := spend_info_loop_sigs origins signers 0 []
      simpa using hs
    · intro o
      have hl := spend_info_loop_lookup origins signers 0 [] o
      have h0 : lookup_count [] o = 0 := rfl
      rw [h0] at hl
      simpa using hl
  · intro p s signers hlen
    obtain ⟨fg, dp⟩ := s
    cases hto : p.thresh_origins with
    | none => simp [PathInfo.spend_info, hto]
    | some pr =>
        obtain ⟨t, origins⟩ := pr
        simp only [PathInfo.spend_info, hto]
        rw [spend_info_loop_cons_short origins fg dp signers 0 [] hlen]
  · rfl

/-- Witness for C2's general part at the concrete scenario. -/
theorem claim_c2_witness :
    ∃ info,
      PathInfo.spend_info (PathInfo.Multi 2 [ex_key_a, ex_key_b, ex_key_c])
        ex_signers = some info ∧
      info.threshold = 2 ∧
      info.sigs_count = count_sigs
        ([ex_origin_a, ex_origin_b, ex_origin_c].toFinset) ex_signers ∧
      ∀ o, lookup_count info.signed_pubkeys o =
        count_for ([ex_origin_a, ex_origin_b, ex_origin_c].toFinset)
          ex_signers o :=
  claim_c2.1 (PathInfo.Multi 2 [ex_key_a, ex_key_b, ex_key_c]) 2
    ([ex_origin_a, ex_origin_b, ex_origin_c].toFinset) ex_signers rfl

/-- C9: every `PathSpendInfo` produced by `spend_info` has `sigs_count`
equal to the total of the per-origin counters, every counter at least 1,
and every counted origin inside the path's `thresh_origins` set. -/
theorem claim_c9 : ∀ (p : PathInfo)
    (signers : List (Fingerprint × DerivationPath)) (info : PathSpendInfo),
    p.spend_info signers = some info →
    info.sigs_count = sum_counts info.signed_pubkeys ∧
    (∀ e ∈ info.signed_pubkeys, 1 ≤ e.2) ∧
    (∀ e ∈ info.signed_pubkeys, ∃ t origins,
      p.thresh_origins = some (t, origins) ∧ e.1 ∈ origins) := by
  intro p signers info h
  cases hto : p.thresh_origins with
  | none =>
      simp only [PathInfo.spend_info, hto] at h
      exact Option.noConfusion h
  | some pr =>
      obtain ⟨t, origins⟩ := pr
      simp only [PathInfo.spend_info, hto] at h
      have heq := Option.some.inj h
      subst heq
      refine ⟨?_, ?_, ?_⟩
      · have hs := spend_info_loop_sigs origins signers 0 []
        have hm := spend_info_loop_sum origins signers 0 []
        have h0 : sum_counts [] = 0 := rfl
        rw [h0] at hm
        simp only [hs, hm]
      · intro e he
        exact spend_info_loop_pos origins signers 0 [] (by simp) e he
      · intro e he
        refine ⟨t, origins, rfl, ?_⟩
        rcases spend_info_loop_keys origins signers 0 [] e.1
            (List.mem_map_of_mem Prod.fst he) with hin | hin
        · simp at hin
        · exact hin

/-- Witness for C9 at the concrete scenario. -/
theorem claim_c9_witness :
    (2 : Nat) = sum_counts [(ex_origin_a, 2)] ∧
    (∀ e ∈ [(ex_origin_a, (2 : Nat))], 1 ≤ e.2) ∧
    (∀ e ∈ [(ex_origin_a, (2 : Nat))], ∃ t origins,
      PathInfo.thresh_origins
          (PathInfo.Multi 2 [ex_key_a, ex_key_b, ex_key_c]) =
        some (t, origins) ∧ e.1 ∈ origins) :=
  claim_c9 (PathInfo.Multi 2 [ex_key_a, ex_key_b, ex_key_c]) ex_signers
    { threshold := 2, sigs_count := 2, signed_pubkeys := [(ex_origin_a, 2)] }
    rfl
